import Mathlib

/-!
Formal model of the core of `Excel-CPU-Disassembler.py`: the address codec
(`Address`), the per-cell trace record (`Cell`), the tracer (`preparation`)
and the emitter (`output`), together with theorems settling the
specification's claims.

Modelling conventions:
* Python strings are modelled as `List Char`; the relevant string builtins
  (`ord`, `chr`, `str.upper`, `str.isalpha`, `int(...)`) are modelled on the
  ASCII fragment the program uses.
* Python list indexing on the 65536-cell memory is modelled by guarded
  access in `Except String`; an out-of-range index yields the error value
  `errIndex` (Python `IndexError`).  The one dynamically ill-typed statement
  in the emitter (calling the mnemonic list `ins_set` as a function) yields
  `errType` (Python `TypeError`).
* Loops are modelled by structural recursion on explicit fuel; the fuel
  bound 70000 exceeds the largest possible number of iterations (at most
  65537), and exhaustion yields `errFuel`, which is proved unreachable where
  it matters.
-/

namespace ExcelDisasm

/-- The four address display styles accepted by `--address-style`. -/
inductive Style
  | deci
  | hex
  | rowcol
  | excel
deriving DecidableEq

/-- The recognized configuration options (the argparse flags the core reads). -/
structure Config where
  address_style : Style
  include_address : Bool
  include_data : Bool
  decode_all : Bool
  no_warnings : Bool
deriving DecidableEq

/-- Python `c.isdigit()` on the ASCII fragment. -/
def pyIsDigit (c : Char) : Bool := decide (48 ≤ c.toNat ∧ c.toNat ≤ 57)

/-- Python `c.isalpha()` on the ASCII fragment. -/
def pyIsAlpha (c : Char) : Bool :=
  decide ((65 ≤ c.toNat ∧ c.toNat ≤ 90) ∨ (97 ≤ c.toNat ∧ c.toNat ≤ 122))

/-- Python `c.upper()` on the ASCII fragment. -/
def pyUpper (c : Char) : Char :=
  if 97 ≤ c.toNat ∧ c.toNat ≤ 122 then Char.ofNat (c.toNat - 32) else c

/-- The character Python `str` uses for the decimal digit `d`. -/
def decDigitChar (d : Nat) : Char := Char.ofNat (48 + d)

/-- The character Python format code `X` uses for the hex digit `d` (uppercase). -/
def hexDigitChar (d : Nat) : Char :=
  if d < 10 then Char.ofNat (48 + d) else Char.ofNat (55 + d)

/-- Decimal rendering of a natural number (Python `str(n)`), with explicit
recursion fuel; `toDeci` supplies enough fuel for any input. -/
def toDeciAux : Nat → Nat → List Char
  | 0, _ => []
  | fuel + 1, n =>
    if n < 10 then [decDigitChar n]
    else toDeciAux fuel (n / 10) ++ [decDigitChar (n % 10)]

/-- Python `str(n)` for a natural number. -/
def toDeci (n : Nat) : List Char := toDeciAux (n + 1) n

/-- Value of a decimal digit character. -/
def decVal (c : Char) : Nat := c.toNat - 48

/-- The whitespace Python `int()` strips, on the ASCII fragment:
codes 9-13 and the space 32. -/
def pyIsSpace (c : Char) : Bool :=
  decide ((9 ≤ c.toNat ∧ c.toNat ≤ 13) ∨ c.toNat = 32)

/-- The stripping of surrounding whitespace `int()` applies to its argument. -/
def pyStrip (l : List Char) : List Char :=
  ((l.dropWhile pyIsSpace).reverse.dropWhile pyIsSpace).reverse

/-- The remainder of a Python integer literal's digit run after its first
digit: further digits, with an underscore allowed only between two digits. -/
def pyDigitsAux : Nat → List Char → Option Nat
  | acc, [] => some acc
  | acc, [c] => if pyIsDigit c then some (acc * 10 + decVal c) else none
  | acc, c :: d :: rest =>
    if pyIsDigit c then pyDigitsAux (acc * 10 + decVal c) (d :: rest)
    else if c = '_' ∧ pyIsDigit d then pyDigitsAux acc (d :: rest)
    else none

/-- A nonempty digit run with single underscore separators, as `int()`
accepts after the optional sign. -/
def pyDigits (l : List Char) : Option Nat :=
  match l with
  | [] => none
  | c :: rest => if pyIsDigit c then pyDigitsAux (decVal c) rest else none

/-- Python `int(s)` on an unsigned decimal literal (ASCII fragment):
surrounding whitespace is stripped and underscores may separate digits;
`none` models ValueError. -/
def pyParseNat (l : List Char) : Option Nat := pyDigits (pyStrip l)

/-- The sign-and-digits part of `int(s)`: an optional sign directly followed
by the digit run (no whitespace is allowed between sign and digits). -/
def pySigned (l : List Char) : Option Int :=
  match l with
  | [] => none
  | c :: rest =>
    if c = '-' then (pyDigits rest).map (fun n => -(n : Int))
    else if c = '+' then (pyDigits rest).map (fun n => (n : Int))
    else (pyDigits (c :: rest)).map (fun n => (n : Int))

/-- Python `int(s)` (ASCII fragment): strip surrounding whitespace, then an
optional sign followed by a nonempty digit run with single underscore
separators. -/
def pyParseInt (l : List Char) : Option Int := pySigned (pyStrip l)

/-- `Address.to_hex`: `f'{address:04X}'` for a 16-bit address. -/
def to_hex (a : Nat) : List Char :=
  [hexDigitChar (a / 4096 % 16), hexDigitChar (a / 256 % 16),
   hexDigitChar (a / 16 % 16), hexDigitChar (a % 16)]

/-- `Address.to_row_col`: `(address // 0x100, address % 0x100)`. -/
def to_row_col (a : Nat) : Nat × Nat := (a / 256, a % 256)

/-- `Address.from_row_col`: `row * 0x100 + col` (over `Int`, because
`from_excel` can feed it negative parts for malformed strings). -/
def from_row_col (row col : Int) : Int := row * 256 + col

/-- `Address.to_excel`: column letters (double letters for column ≥ 26) then
the 1-based row number. -/
def to_excel (a : Nat) : List Char :=
  let row := (to_row_col a).1
  let col := (to_row_col a).2
  if 26 ≤ col then
    Char.ofNat (col / 26 + 65) :: Char.ofNat (col % 26 + 65) :: toDeci (row + 1)
  else
    Char.ofNat (col + 65) :: toDeci (row + 1)

/-- Hex digit value as Python `int(s, 16)` accepts it (either case). -/
def hexVal (c : Char) : Option Nat :=
  if 48 ≤ c.toNat ∧ c.toNat ≤ 57 then some (c.toNat - 48)
  else if 65 ≤ c.toNat ∧ c.toNat ≤ 70 then some (c.toNat - 55)
  else if 97 ≤ c.toNat ∧ c.toNat ≤ 102 then some (c.toNat - 87)
  else none

/-- `Address.from_hex`: `int(hex_str, 16)` on plain hex-digit strings;
`none` models ValueError. -/
def from_hex (l : List Char) : Option Nat :=
  if l = [] then none
  else l.foldl (fun acc c => acc.bind (fun a => (hexVal c).map (fun v => a * 16 + v))) (some 0)

/-- `Address.from_excel`: one or two column letters (after `upper()`) and a
1-based row; `none` models the ValueError from `int` (or the IndexError on
strings shorter than two characters).  Note the source checks only that the
second character is alphabetic; it never checks that letters are in range. -/
def from_excel (l : List Char) : Option Int :=
  match l with
  | c0 :: c1 :: rest =>
    if pyIsAlpha c1 then
      (pyParseInt rest).map (fun r =>
        from_row_col (r - 1)
          ((((pyUpper c0).toNat : Int) - 65) * 26 + (((pyUpper c1).toNat : Int) - 65)))
    else
      (pyParseInt (c1 :: rest)).map (fun r =>
        from_row_col (r - 1) (((pyUpper c0).toNat : Int) - 65))
  | _ => none

/-- Modelled from the spec: the decimal display style has no decoder in the
source (`Address` has `from_hex`, `from_row_col` and `from_excel` only); the
spec requires every rendering to round-trip, so the decimal rendering is
decoded with Python `int(s)` on digit strings. -/
def from_deci (l : List Char) : Option Nat := pyParseNat l

/-- `Address.__str__` under the configured display style. -/
def addrStr (cfg : Config) (a : Nat) : List Char :=
  match cfg.address_style with
  | .deci => toDeci a
  | .hex => to_hex a
  | .rowcol => toDeci (to_row_col a).1 ++ '_' :: toDeci (to_row_col a).2
  | .excel => to_excel a

/-- `Address.tab_pad`: the rendered address, plus a tab when shorter than 4. -/
def tab_pad (cfg : Config) (a : Nat) : List Char :=
  addrStr cfg a ++ (if (addrStr cfg a).length < 4 then ['\t'] else [])

theorem char_toNat_ofNat (n : Nat) (h : n < 55296) : (Char.ofNat n).toNat = n := by
  unfold Char.ofNat
  rw [dif_pos (Or.inl h)]
  rfl

theorem decDigitChar_toNat (d : Nat) (h : d < 10) : (decDigitChar d).toNat = 48 + d :=
  char_toNat_ofNat (48 + d) (by omega)

theorem toDeciAux_spec (fuel : Nat) : ∀ n, n < fuel →
    toDeciAux fuel n ≠ [] ∧ (∀ c ∈ toDeciAux fuel n, 48 ≤ c.toNat ∧ c.toNat ≤ 57) ∧
    ∀ i : Nat, (toDeciAux fuel n).foldl (fun a c => a * 10 + decVal c) i = i * 10 ^ (toDeciAux fuel n).length + n := by
  induction fuel with
  | zero => intro n h; omega
  | succ f ih =>
    intro n h
    by_cases h10 : n < 10
    · refine ⟨by simp [toDeciAux, h10], ?_, ?_⟩
      · intro c hc
        simp [toDeciAux, h10] at hc
        subst hc
        rw [decDigitChar_toNat n h10]
        omega
      · intro i
        simp [toDeciAux, h10, decVal, decDigitChar_toNat n h10]
    · have hrec : n / 10 < f := by omega
      obtain ⟨hne, hdig, hfold⟩ := ih (n / 10) hrec
      refine ⟨by simp [toDeciAux, h10], ?_, ?_⟩
      · intro c hc
        simp only [toDeciAux, if_neg h10, List.mem_append, List.mem_singleton] at hc
        rcases hc with hc | hc
        · exact hdig c hc
        · subst hc
          rw [decDigitChar_toNat (n % 10) (by omega)]
          omega
      · intro i
        simp only [toDeciAux, if_neg h10, List.foldl_append, List.length_append,
          List.length_singleton, List.foldl_cons, List.foldl_nil]
        rw [hfold i, decVal, decDigitChar_toNat (n % 10) (by omega)]
        rw [pow_succ]
        ring_nf
        omega

theorem toDeci_ne_nil (n : Nat) : toDeci n ≠ [] :=
  (toDeciAux_spec (n + 1) n (by omega)).1

theorem toDeci_digits (n : Nat) : ∀ c ∈ toDeci n, 48 ≤ c.toNat ∧ c.toNat ≤ 57 :=
  (toDeciAux_spec (n + 1) n (by omega)).2.1

theorem toDeci_foldl (n : Nat) :
    (toDeci n).foldl (fun a c => a * 10 + decVal c) 0 = n := by
  have h := (toDeciAux_spec (n + 1) n (by omega)).2.2 0
  simpa [toDeci] using h

theorem pyIsSpace_digit (c : Char) (h : 48 ≤ c.toNat ∧ c.toNat ≤ 57) : pyIsSpace c = false := by
  rw [pyIsSpace]
  simp only [decide_eq_false_iff_not]
  omega

theorem dropWhile_no_space (l : List Char) (h : ∀ c ∈ l, pyIsSpace c = false) :
    l.dropWhile pyIsSpace = l := by
  cases l with
  | nil => rfl
  | cons c t =>
    rw [List.dropWhile_cons, h c (List.mem_cons_self c t)]
    rfl

theorem pyStrip_digits (l : List Char) (h : ∀ c ∈ l, 48 ≤ c.toNat ∧ c.toNat ≤ 57) :
    pyStrip l = l := by
  have hns : ∀ c ∈ l, pyIsSpace c = false := fun c hc => pyIsSpace_digit c (h c hc)
  rw [pyStrip, dropWhile_no_space l hns, dropWhile_no_space l.reverse
    (fun c hc => hns c (List.mem_reverse.mp hc)), List.reverse_reverse]

theorem pyDigitsAux_digits : ∀ (l : List Char) (acc : Nat),
    (∀ c ∈ l, 48 ≤ c.toNat ∧ c.toNat ≤ 57) →
    pyDigitsAux acc l = some (l.foldl (fun a c => a * 10 + decVal c) acc)
  | [], acc, h => rfl
  | [c], acc, h => by
    have hd : pyIsDigit c = true := by
      rw [pyIsDigit]
      simp only [decide_eq_true_eq]
      exact h c (List.mem_cons_self c [])
    simp only [pyDigitsAux]
    rw [if_pos hd, List.foldl_cons, List.foldl_nil]
  | c :: d :: rest, acc, h => by
    have hd : pyIsDigit c = true := by
      rw [pyIsDigit]
      simp only [decide_eq_true_eq]
      exact h c (List.mem_cons_self c (d :: rest))
    simp only [pyDigitsAux]
    rw [if_pos hd, List.foldl_cons,
      pyDigitsAux_digits (d :: rest) _ (fun e he => h e (List.mem_cons_of_mem c he))]

theorem pyDigits_digits (l : List Char) (hne : l ≠ [])
    (h : ∀ c ∈ l, 48 ≤ c.toNat ∧ c.toNat ≤ 57) :
    pyDigits l = some (l.foldl (fun a c => a * 10 + decVal c) 0) := by
  cases l with
  | nil => exact absurd rfl hne
  | cons c t =>
    have hd : pyIsDigit c = true := by
      rw [pyIsDigit]
      simp only [decide_eq_true_eq]
      exact h c (List.mem_cons_self c t)
    have h0 : (0 : Nat) * 10 + decVal c = decVal c := by omega
    simp only [pyDigits]
    rw [if_pos hd, List.foldl_cons]
    rw [h0, pyDigitsAux_digits t (decVal c) (fun d hd2 => h d (List.mem_cons_of_mem c hd2))]

theorem pyParseNat_toDeci (n : Nat) : pyParseNat (toDeci n) = some n := by
  rw [pyParseNat, pyStrip_digits (toDeci n) (toDeci_digits n),
    pyDigits_digits (toDeci n) (toDeci_ne_nil n) (toDeci_digits n), toDeci_foldl]

theorem pyParseInt_toDeci (n : Nat) : pyParseInt (toDeci n) = some (n : Int) := by
  obtain ⟨c, l, hcl⟩ : ∃ c l, toDeci n = c :: l := by
    cases h : toDeci n with
    | nil => exact absurd h (toDeci_ne_nil n)
    | cons c l => exact ⟨c, l, rfl⟩
  have hc : 48 ≤ c.toNat ∧ c.toNat ≤ 57 := toDeci_digits n c (by rw [hcl]; exact List.mem_cons_self c l)
  have hminus : c ≠ '-' := by
    intro hEq
    rw [hEq] at hc
    simp at hc
  have hplus : c ≠ '+' := by
    intro hEq
    rw [hEq] at hc
    simp at hc
  rw [pyParseInt, pyStrip_digits (toDeci n) (toDeci_digits n), hcl]
  simp only [pySigned]
  rw [if_neg hminus, if_neg hplus, ← hcl,
    pyDigits_digits (toDeci n) (toDeci_ne_nil n) (toDeci_digits n), toDeci_foldl]
  rfl

theorem hexDigitChar_toNat (d : Nat) (h : d < 16) :
    (hexDigitChar d).toNat = if d < 10 then 48 + d else 55 + d := by
  by_cases h10 : d < 10
  · rw [hexDigitChar, if_pos h10, if_pos h10, char_toNat_ofNat (48 + d) (by omega)]
  · rw [hexDigitChar, if_neg h10, if_neg h10, char_toNat_ofNat (55 + d) (by omega)]

theorem hexVal_hexDigitChar (d : Nat) (h : d < 16) : hexVal (hexDigitChar d) = some d := by
  have ht := hexDigitChar_toNat d h
  by_cases h10 : d < 10
  · rw [if_pos h10] at ht
    simp only [hexVal, ht]
    rw [if_pos (by omega)]
    congr 1
    omega
  · rw [if_neg h10] at ht
    simp only [hexVal, ht]
    rw [if_neg (by omega), if_pos (by omega)]
    congr 1
    omega

theorem from_hex_to_hex (a : Nat) (h : a ≤ 65535) : from_hex (to_hex a) = some a := by
  have e1 := hexVal_hexDigitChar (a / 4096 % 16) (by omega)
  have e2 := hexVal_hexDigitChar (a / 256 % 16) (by omega)
  have e3 := hexVal_hexDigitChar (a / 16 % 16) (by omega)
  have e4 := hexVal_hexDigitChar (a % 16) (by omega)
  rw [to_hex, from_hex, if_neg (by simp)]
  simp only [List.foldl_cons, List.foldl_nil, e1, e2, e3, e4, Option.some_bind,
    Option.map_some']
  congr 1
  omega

theorem from_row_col_to_row_col (a : Nat) :
    from_row_col ((to_row_col a).1 : Int) ((to_row_col a).2 : Int) = (a : Int) := by
  rw [to_row_col, from_row_col]
  push_cast
  omega

theorem pyUpper_of_upper (n : Nat) (h1 : n < 97) (h2 : n < 55296) :
    pyUpper (Char.ofNat n) = Char.ofNat n := by
  rw [pyUpper, if_neg]
  rw [char_toNat_ofNat n h2]
  omega

theorem pyIsAlpha_digit (c : Char) (h : 48 ≤ c.toNat ∧ c.toNat ≤ 57) : pyIsAlpha c = false := by
  simp [pyIsAlpha]
  omega

theorem from_excel_to_excel (a : Nat) (h : a ≤ 65535) : from_excel (to_excel a) = some (a : Int) := by
  have hrow : a / 256 ≤ 255 := by omega
  have hcol : a % 256 ≤ 255 := by omega
  obtain ⟨c, l, hcl⟩ : ∃ c l, toDeci (a / 256 + 1) = c :: l := by
    cases hx : toDeci (a / 256 + 1) with
    | nil => exact absurd hx (toDeci_ne_nil _)
    | cons c l => exact ⟨c, l, rfl⟩
  have hcdig : 48 ≤ c.toNat ∧ c.toNat ≤ 57 :=
    toDeci_digits _ c (by rw [hcl]; exact List.mem_cons_self c l)
  by_cases h26 : 26 ≤ a % 256
  · have halpha : pyIsAlpha (Char.ofNat (a % 256 % 26 + 65)) = true := by
      rw [pyIsAlpha, char_toNat_ofNat (a % 256 % 26 + 65) (by omega)]
      simp only [decide_eq_true_eq]
      omega
    simp only [to_excel, to_row_col]
    rw [if_pos h26]
    simp only [from_excel]
    rw [if_pos halpha, pyParseInt_toDeci]
    rw [pyUpper_of_upper (a % 256 / 26 + 65) (by omega) (by omega)]
    rw [pyUpper_of_upper (a % 256 % 26 + 65) (by omega) (by omega)]
    rw [char_toNat_ofNat (a % 256 / 26 + 65) (by omega)]
    rw [char_toNat_ofNat (a % 256 % 26 + 65) (by omega)]
    rw [Option.map_some']
    congr 1
    rw [from_row_col]
    have hdm : a % 256 / 26 * 26 + a % 256 % 26 = a % 256 := by omega
    push_cast
    omega
  · have hna : pyIsAlpha c = false := pyIsAlpha_digit c hcdig
    simp only [to_excel, to_row_col]
    rw [if_neg h26, hcl]
    simp only [from_excel]
    rw [if_neg (by rw [hna]; simp), ← hcl, pyParseInt_toDeci]
    rw [pyUpper_of_upper (a % 256 + 65) (by omega) (by omega)]
    rw [char_toNat_ofNat (a % 256 + 65) (by omega)]
    rw [Option.map_some']
    congr 1
    rw [from_row_col]
    push_cast
    omega

theorem from_deci_toDeci (n : Nat) : from_deci (toDeci n) = some n := pyParseNat_toDeci n

/-- C3: for every address in [0, 65535] and each of the four display styles,
decoding the encoding yields the address again: `from_hex ∘ to_hex`,
`from_row_col ∘ to_row_col`, `from_excel ∘ to_excel` and the
(spec-modelled) decimal decoder on `str(a)` all round-trip exactly, so every
rendering is injective in the integer address. -/
theorem address_codec_roundtrip (a : Nat) (h : a ≤ 65535) :
    from_hex (to_hex a) = some a ∧
    from_row_col ((to_row_col a).1 : Int) ((to_row_col a).2 : Int) = (a : Int) ∧
    from_excel (to_excel a) = some (a : Int) ∧
    from_deci (toDeci a) = some a :=
  ⟨from_hex_to_hex a h, from_row_col_to_row_col a, from_excel_to_excel a h, from_deci_toDeci a⟩

theorem address_codec_roundtrip_witness :
    (40000 : Nat) ≤ 65535 ∧
    (from_hex (to_hex 40000) = some 40000 ∧
     from_row_col ((to_row_col 40000).1 : Int) ((to_row_col 40000).2 : Int) = (40000 : Int) ∧
     from_excel (to_excel 40000) = some (40000 : Int) ∧
     from_deci (toDeci 40000) = some 40000) :=
  ⟨by omega, address_codec_roundtrip 40000 (by omega)⟩

/-- The row part of a spreadsheet-style address string: the characters the
decoder hands to `int(...)`. -/
def rowPart : List Char → List Char
  | _ :: c1 :: rest => if pyIsAlpha c1 then rest else c1 :: rest
  | _ => []

/-- C4 (amended): on ASCII inputs, `from_excel` rejects with a decode error
exactly the strings that are shorter than two characters or whose row part
is not a valid Python integer literal — optional surrounding whitespace, an
optional sign, then a nonempty digit run with single underscores between
digits.  The column letters are never examined, so out-of-range letters are
silently coerced to an address, and `int()`'s liberality even accepts row
parts such as a space-led row or an underscore-separated row (see the
counterexample). -/
theorem from_excel_rejects_bad_row (cs : List Char) (hascii : ∀ c ∈ cs, c.toNat < 128) :
    from_excel cs = none ↔ (cs.length < 2 ∨ pyParseInt (rowPart cs) = none) := by
  match cs with
  | [] => exact ⟨fun _ => Or.inl (by decide), fun _ => rfl⟩
  | [c0] => exact ⟨fun _ => Or.inl (by simp), fun _ => rfl⟩
  | c0 :: c1 :: rest =>
    constructor
    · intro hnone
      refine Or.inr ?_
      rw [rowPart]
      simp only [from_excel] at hnone
      by_cases ha : pyIsAlpha c1
      · rw [if_pos ha] at hnone ⊢
        cases hpi : pyParseInt rest with
        | none => rfl
        | some v =>
          rw [hpi, Option.map_some'] at hnone
          exact Option.noConfusion hnone
      · rw [if_neg ha] at hnone ⊢
        cases hpi : pyParseInt (c1 :: rest) with
        | none => rfl
        | some v =>
          rw [hpi, Option.map_some'] at hnone
          exact Option.noConfusion hnone
    · intro h
      rcases h with h | h
      · simp only [List.length_cons] at h
        omega
      · rw [rowPart] at h
        simp only [from_excel]
        by_cases ha : pyIsAlpha c1
        · rw [if_pos ha] at h ⊢
          rw [h]
          rfl
        · rw [if_neg ha] at h ⊢
          rw [h]
          rfl

theorem from_excel_rejects_bad_row_witness :
    (∀ c ∈ (['A', 'X', '#'] : List Char), c.toNat < 128) ∧
    (((['A', 'X', '#'] : List Char).length < 2 ∨ pyParseInt (rowPart ['A', 'X', '#']) = none) ∧
      from_excel ['A', 'X', '#'] = none) := by
  refine ⟨by decide, ?_, (from_excel_rejects_bad_row ['A', 'X', '#'] (by decide)).mpr ?_⟩ <;>
    exact Or.inr (by decide)

/-- C4 counterexample: the out-of-range column letters `ZZ` (the largest
valid column is 255, rendered with letters up to `J` in the first position)
are not rejected: `from_excel` silently coerces the string `ZZ1` to the
address 675.  And the row part goes through Python `int()`, which strips
whitespace and accepts underscore separators, so the malformed-looking
strings `A 1` and `A1_0` are also coerced (to 0 and 2304) rather than
rejected. -/
theorem from_excel_coerces_out_of_range :
    from_excel ['Z', 'Z', '1'] = some 675 ∧
    from_excel ['A', ' ', '1'] = some 0 ∧
    from_excel ['A', '1', '_', '0'] = some 2304 := by decide

/-- Shorthand for a string literal's character list. -/
def chars (s : String) : List Char := s.data

/-- One per-address trace record (`class Cell`); `data` is the raw word,
never mutated after load. -/
structure Cell where
  data : Nat
  label : Option (List Char) := none
  exec_from_prev : Option Nat := none
  is_2nd_word : Bool := false
  read_from : List Nat := []
  write_from : List Nat := []
  jump_from : List Nat := []
deriving DecidableEq

/-- The memory: one `Cell` per address, as a total map whose indices are
guarded on every access. -/
def CState : Type := Nat → Cell

/-- The memory as the loader leaves it: raw data, fresh metadata. -/
def freshCells (data : Nat → Nat) : CState :=
  fun i => { data := data i }

/-- Error value modelling Python `IndexError`. -/
def errIndex : String := "IndexError"

/-- Error value modelling the `TypeError` raised by the emitter's
`ins_set(opcode_)` call (line 241), which calls a list. -/
def errType : String := "TypeError"

/-- Error value for fuel exhaustion; not a Python behaviour, and proved
unreachable wherever a result depends on it. -/
def errFuel : String := "Fuel"

/-- Guarded read of `cells[i]`. -/
def readCell (s : CState) (i : Nat) : Except String Cell :=
  if i ≤ 65535 then .ok (s i) else .error errIndex

/-- Unguarded in-place update of `cells[i]`. -/
def setCellU (s : CState) (i : Nat) (f : Cell → Cell) : CState :=
  fun j => if j = i then f (s j) else s j

/-- Guarded in-place update of `cells[i]`. -/
def modifyCell (s : CState) (i : Nat) (f : Cell → Cell) : Except String CState :=
  if i ≤ 65535 then .ok (setCellU s i f) else .error errIndex

/-- High byte of a word: the `opcode` lambda `x >> 8`. -/
def opcodeOf (x : Nat) : Nat := x / 256

/-- Bits 4..7 of a word: the `reg1` lambda `(x >> 4) & 0xf`. -/
def reg1Of (x : Nat) : Nat := x / 16 % 16

/-- Bits 0..3 of a word: the `reg2` lambda `x & 0xf`. -/
def reg2Of (x : Nat) : Nat := x % 16

/-- `f'Entrypoint_{Address(cells[1].data)}'`. -/
def entrypointLabel (cfg : Config) (a : Nat) : List Char :=
  chars ("Entrypoint_") ++ addrStr cfg a

/-- `f'loc_{Address(pc).tab_pad()}'`. -/
def locLabel (cfg : Config) (a : Nat) : List Char :=
  chars ("loc_") ++ tab_pad cfg a

/-- Lines 95-101 of `preparation`: resolve the entry point; with an entry
vector (`cells[0].data == 0`), label the target and give it a synthetic
jump origin 0. -/
def resolveEntry (cfg : Config) (s : CState) : Except String (CState × Nat) := do
  let c0 ← readCell s 0
  if c0.data = 0 then do
    let c1 ← readCell s 1
    let s ← modifyCell s c1.data (fun c => { c with label := some (entrypointLabel cfg c1.data) })
    let s ← modifyCell s c1.data (fun c => { c with jump_from := c.jump_from ++ [0] })
    pure (s, c1.data)
  else
    pure (s, 0)

/-- The downward scan for `last` (lines 104-106), structurally from address
65535.  On an all-zero image the Python loop underflows into negative
indices, re-reads the same zero-valued cells through Python's negative-index
aliasing, and then dies with an IndexError; this is modelled as `errIndex`
when the scan exhausts address 0. -/
def findLastAux (d : Nat → Nat) : Nat → Except String Nat
  | 0 => if d 0 = 0 then .error errIndex else .ok 0
  | n + 1 => if d (n + 1) = 0 then findLastAux d n else .ok (n + 1)

/-- `last = 0xffff; while cells[last].data == 0: last -= 1`. -/
def findLast (d : Nat → Nat) : Except String Nat := findLastAux d 65535

/-- `one_instruction` (lines 109-125): decode the instruction at `pc`,
record the cross-reference its operand induces, mark its operand word, link
fallthrough when the word is nonzero; returns the new cells and next pc. -/
def one_instruction (s : CState) (pc : Nat) : Except String (CState × Nat) := do
  let c ← readCell s pc
  let s ←
    if opcodeOf c.data < 4 then do
      let c1 ← readCell s (pc + 1)
      modifyCell s c1.data (fun t => { t with jump_from := t.jump_from ++ [pc] })
    else if opcodeOf c.data = 4 then do
      let c1 ← readCell s (pc + 1)
      modifyCell s c1.data (fun t => { t with read_from := t.read_from ++ [pc] })
    else if opcodeOf c.data = 6 then do
      let c1 ← readCell s (pc + 1)
      modifyCell s c1.data (fun t => { t with write_from := t.write_from ++ [pc] })
    else pure s
  let r ←
    if opcodeOf c.data < 7 then do
      let s ← modifyCell s (pc + 1) (fun t => { t with is_2nd_word := true })
      pure (s, pc + 2)
    else pure (s, pc + 1)
  if c.data ≠ 0 then do
    let s ← modifyCell r.1 r.2 (fun t => { t with exec_from_prev := some pc })
    pure (s, r.2)
  else pure r

/-- The main sweep (lines 128-129), fuelled. -/
def sweepAux (last : Nat) : Nat → CState → Nat → Except String CState
  | 0, _, _ => .error errFuel
  | fuel + 1, s, pc =>
    if pc ≤ last then do
      let r ← one_instruction s pc
      sweepAux last fuel r.1 r.2
    else pure s

/-- The pre-entry scan (lines 132-137), fuelled: cells before the entry
point are decoded only once they carry a jump origin or a fallthrough link. -/
def preScanAux (entry : Nat) : Nat → CState → Nat → Except String CState
  | 0, _, _ => .error errFuel
  | fuel + 1, s, x =>
    if x < entry then do
      let c ← readCell s x
      if c.jump_from.length = 0 ∧ c.exec_from_prev = none then
        preScanAux entry fuel s (x + 1)
      else do
        let r ← one_instruction s x
        preScanAux entry fuel r.1 r.2
    else pure s

/-- The label pass (lines 140-144), fuelled. -/
def labelAux (cfg : Config) (last : Nat) : Nat → CState → Nat → Except String CState
  | 0, _, _ => .error errFuel
  | fuel + 1, s, pc =>
    if pc ≤ last then do
      let c ← readCell s pc
      let s ←
        if c.is_2nd_word = false ∧ c.label = none ∧ c.jump_from.length ≠ 0 then
          modifyCell s pc (fun t => { t with label := some (locLabel cfg pc) })
        else pure s
      labelAux cfg last fuel s (pc + 1)
    else pure s

/-- Fuel bound covering every loop of the program: no pass can make more
than 65537 iterations, since its counter starts at 0 or above, grows by at
least 1 per iteration, and stops beyond 65536. -/
def F : Nat := 70000

/-- The body of `preparation()` run from a given cell state (so that a
second invocation over an already-traced memory can be stated). -/
def prepPhases (cfg : Config) (s : CState) : Except String (CState × Nat × Nat) := do
  let r ← resolveEntry cfg s
  let last ← findLast (fun i => (r.1 i).data)
  let s ← sweepAux last F r.1 r.2
  let s ← preScanAux r.2 F s 0
  let s ← labelAux cfg last F s r.2
  pure (s, r.2, last)

/-- `preparation()` over a freshly loaded image. -/
def preparation (cfg : Config) (data : Nat → Nat) : Except String (CState × Nat × Nat) :=
  prepPhases cfg (freshCells data)

/-- The cell a preparation result holds at address `i` (`none` on error). -/
def cellAt (r : Except String (CState × Nat × Nat)) (i : Nat) : Option Cell :=
  match r with
  | .ok (s, _, _) => some (s i)
  | .error _ => none

/-- The entry address a preparation result resolved (`none` on error). -/
def entryOf (r : Except String (CState × Nat × Nat)) : Option Nat :=
  match r with
  | .ok (_, e, _) => some e
  | .error _ => none

/-- The last address a preparation result found (`none` on error). -/
def lastOf (r : Except String (CState × Nat × Nat)) : Option Nat :=
  match r with
  | .ok (_, _, l) => some l
  | .error _ => none

theorem bindOk {α β : Type} (v : α) (f : α → Except String β) :
    (Except.ok v >>= f) = f v := rfl

theorem bindErr {α β : Type} (e : String) (f : α → Except String β) :
    ((Except.error e : Except String α) >>= f) = Except.error e := rfl

/-- The raw word values a cell state holds. -/
def dataOf (s : CState) : Nat → Nat := fun i => (s i).data

theorem findLastAux_skip (d : Nat → Nat) (m : Nat) :
    ∀ n, m ≤ n → (∀ j, m < j → j ≤ n → d j = 0) → findLastAux d n = findLastAux d m := by
  intro n
  induction n with
  | zero => intro h _; rw [Nat.le_zero.mp h]
  | succ k ih =>
    intro hmn hz
    rcases Nat.lt_or_ge m (k + 1) with hlt | hge
    · rw [findLastAux, if_pos (hz (k + 1) hlt (Nat.le_refl _))]
      exact ih (by omega) (fun j h1 h2 => hz j h1 (by omega))
    · rw [Nat.le_antisymm hmn hge]

theorem findLast_eq (d : Nat → Nat) (L : Nat) (hL : L ≤ 65535) (hnz : d L ≠ 0)
    (hz : ∀ j, L < j → j ≤ 65535 → d j = 0) : findLast d = .ok L := by
  rw [findLast, findLastAux_skip d L 65535 hL hz]
  cases L with
  | zero => rw [findLastAux, if_neg hnz]
  | succ k => rw [findLastAux, if_neg hnz]

theorem findLastAux_all_zero (d : Nat → Nat) :
    ∀ n, (∀ j, j ≤ n → d j = 0) → findLastAux d n = .error errIndex := by
  intro n
  induction n with
  | zero => intro hz; rw [findLastAux, if_pos (hz 0 (Nat.le_refl 0))]
  | succ k ih =>
    intro hz
    rw [findLastAux, if_pos (hz (k + 1) (Nat.le_refl _))]
    exact ih (fun j hj => hz j (by omega))

theorem modifyCell_data (s : CState) (i : Nat) (f : Cell → Cell)
    (hf : ∀ c, (f c).data = c.data) (s' : CState) (h : modifyCell s i f = .ok s') :
    ∀ j, (s' j).data = (s j).data := by
  rw [modifyCell] at h
  by_cases hi : i ≤ 65535
  · rw [if_pos hi] at h
    cases h
    intro j
    by_cases hj : j = i
    · simp [setCellU, hj, hf]
    · simp [setCellU, hj]
  · rw [if_neg hi] at h
    cases h

theorem resolveEntry_data (cfg : Config) (s : CState) (s' : CState) (e : Nat)
    (h : resolveEntry cfg s = .ok (s', e)) : ∀ j, (s' j).data = (s j).data := by
  rw [resolveEntry] at h
  by_cases h0 : (s 0).data = 0
  · rw [readCell, if_pos (by omega), bindOk, if_pos h0, readCell, if_pos (by omega), bindOk] at h
    cases h1 : modifyCell s (s 1).data
      (fun c => { c with label := some (entrypointLabel cfg (s 1).data) }) with
    | error e1 => rw [h1, bindErr] at h; cases h
    | ok s1 =>
      rw [h1, bindOk] at h
      cases h2 : modifyCell s1 (s 1).data (fun c => { c with jump_from := c.jump_from ++ [0] }) with
      | error e2 => rw [h2, bindErr] at h; cases h
      | ok s2 =>
        rw [h2, bindOk] at h
        cases h
        intro j
        rw [modifyCell_data s1 (s 1).data
            (fun c => { c with jump_from := c.jump_from ++ [0] }) (fun c => rfl) s' h2 j,
          modifyCell_data s (s 1).data
            (fun c => { c with label := some (entrypointLabel cfg (s 1).data) })
            (fun c => rfl) s1 h1 j]
  · rw [readCell, if_pos (by omega), bindOk, if_neg h0] at h
    cases h
    intro j
    rfl

theorem pureEq {α : Type} (v : α) : (pure v : Except String α) = Except.ok v := rfl

/-- The cross-reference update of `one_instruction` (lines 112-117), as a
pure state transformer (defined for stating its closed form). -/
def xrefStep (s : CState) (pc : Nat) : CState :=
  if opcodeOf (s pc).data < 4 then
    setCellU s ((s (pc + 1)).data) (fun t => { t with jump_from := t.jump_from ++ [pc] })
  else if opcodeOf (s pc).data = 4 then
    setCellU s ((s (pc + 1)).data) (fun t => { t with read_from := t.read_from ++ [pc] })
  else if opcodeOf (s pc).data = 6 then
    setCellU s ((s (pc + 1)).data) (fun t => { t with write_from := t.write_from ++ [pc] })
  else s

/-- The width/second-word update of `one_instruction` (lines 118-122). -/
def widthStep (s : CState) (pc : Nat) (s1 : CState) : CState × Nat :=
  if opcodeOf (s pc).data < 7 then
    (setCellU s1 (pc + 1) (fun t => { t with is_2nd_word := true }), pc + 2)
  else (s1, pc + 1)

/-- Closed form of a successful `one_instruction` step. -/
def oneInstrPure (s : CState) (pc : Nat) : CState × Nat :=
  let r := widthStep s pc (xrefStep s pc)
  if (s pc).data ≠ 0 then
    (setCellU r.1 r.2 (fun t => { t with exec_from_prev := some pc }), r.2)
  else r


theorem one_instruction_eq_ok (s : CState) (pc : Nat) (hpc : pc ≤ 65535)
    (h1 : opcodeOf (s pc).data < 7 → pc + 1 ≤ 65535)
    (htgt : opcodeOf (s pc).data < 4 ∨ opcodeOf (s pc).data = 4 ∨ opcodeOf (s pc).data = 6 →
      (s (pc + 1)).data ≤ 65535)
    (hex : (s pc).data ≠ 0 → (widthStep s pc (xrefStep s pc)).2 ≤ 65535) :
    one_instruction s pc = .ok (oneInstrPure s pc) := by
  rw [one_instruction, oneInstrPure, readCell, if_pos hpc]
  simp only [bindOk, pureEq]
  by_cases h4 : opcodeOf (s pc).data < 4
  · have h7 : opcodeOf (s pc).data < 7 := by omega
    have hb1 : pc + 1 ≤ 65535 := h1 h7
    have hbt : (s (pc + 1)).data ≤ 65535 := htgt (Or.inl h4)
    simp only [widthStep, xrefStep, eq_true h4, eq_true h7, if_true] at hex ⊢
    simp only [readCell, modifyCell, eq_true hb1, eq_true hbt, if_true, bindOk, pureEq]
    by_cases hd : (s pc).data = 0
    · simp only [eq_false (not_not_intro hd), if_false]
    · have hb2 := hex hd
      simp only [eq_true hd, eq_true hb2, if_true, bindOk, pureEq]
  · by_cases h4' : opcodeOf (s pc).data = 4
    · have h7 : opcodeOf (s pc).data < 7 := by omega
      have hb1 : pc + 1 ≤ 65535 := h1 h7
      have hbt : (s (pc + 1)).data ≤ 65535 := htgt (Or.inr (Or.inl h4'))
      simp only [widthStep, xrefStep, eq_false h4, eq_true h4', eq_true h7, if_true, if_false]
        at hex ⊢
      simp only [readCell, modifyCell, eq_true hb1, eq_true hbt, if_true, bindOk, pureEq]
      by_cases hd : (s pc).data = 0
      · simp only [eq_false (not_not_intro hd), if_false]
      · have hb2 := hex hd
        simp only [eq_true hd, eq_true hb2, if_true, bindOk, pureEq]
    · by_cases h6 : opcodeOf (s pc).data = 6
      · have h7 : opcodeOf (s pc).data < 7 := by omega
        have hb1 : pc + 1 ≤ 65535 := h1 h7
        have hbt : (s (pc + 1)).data ≤ 65535 := htgt (Or.inr (Or.inr h6))
        simp only [widthStep, xrefStep, eq_false h4, eq_false h4', eq_true h6, eq_true h7,
          if_true, if_false] at hex ⊢
        simp only [readCell, modifyCell, eq_true hb1, eq_true hbt, if_true, bindOk, pureEq]
        by_cases hd : (s pc).data = 0
        · simp only [eq_false (not_not_intro hd), if_false]
        · have hb2 := hex hd
          simp only [eq_true hd, eq_true hb2, if_true, bindOk, pureEq]
      · by_cases h7 : opcodeOf (s pc).data < 7
        · have hb1 : pc + 1 ≤ 65535 := h1 h7
          simp only [widthStep, xrefStep, eq_false h4, eq_false h4', eq_false h6, eq_true h7,
            if_true, if_false] at hex ⊢
          simp only [readCell, modifyCell, eq_true hb1, if_true, bindOk, pureEq]
          by_cases hd : (s pc).data = 0
          · simp only [eq_false (not_not_intro hd), if_false]
          · have hb2 := hex hd
            simp only [eq_true hd, eq_true hb2, if_true, modifyCell, bindOk, pureEq]
        · simp only [widthStep, xrefStep, eq_false h4, eq_false h4', eq_false h6, eq_false h7,
            if_true, if_false] at hex ⊢
          by_cases hd : (s pc).data = 0
          · simp only [eq_false (not_not_intro hd), if_false]
          · have hb2 := hex hd
            simp only [eq_true hd, eq_true hb2, if_true, modifyCell, bindOk, pureEq]

theorem one_instruction_inv (s : CState) (pc : Nat) (r : CState × Nat)
    (h : one_instruction s pc = .ok r) : r = oneInstrPure s pc ∧ pc ≤ 65535 := by
  by_cases hpc : pc ≤ 65535
  case neg =>
    rw [one_instruction, readCell, if_neg hpc, bindErr] at h
    cases h
  refine ⟨?_, hpc⟩
  rw [one_instruction, readCell, if_pos hpc] at h
  simp only [bindOk, pureEq] at h
  rw [oneInstrPure, widthStep, xrefStep]
  by_cases h4 : opcodeOf (s pc).data < 4
  · have h7 : opcodeOf (s pc).data < 7 := by omega
    simp only [eq_true h4, eq_true h7, if_true] at h ⊢
    by_cases hb1 : pc + 1 ≤ 65535
    · by_cases hbt : (s (pc + 1)).data ≤ 65535
      · by_cases hd : (s pc).data = 0
        · simp only [readCell, modifyCell, eq_true hb1, eq_true hbt, if_true, bindOk, pureEq,
            eq_false (not_not_intro hd), if_false] at h ⊢
          exact (Except.ok.inj h).symm
        · by_cases hb2 : pc + 2 ≤ 65535
          · simp only [readCell, modifyCell, eq_true hb1, eq_true hbt, eq_true hb2, if_true,
              bindOk, pureEq, eq_true hd] at h ⊢
            exact (Except.ok.inj h).symm
          · simp only [readCell, modifyCell, eq_true hb1, eq_true hbt, eq_false hb2, if_true,
              if_false, bindOk, bindErr, pureEq, eq_true hd] at h
            cases h
      · simp only [readCell, modifyCell, eq_true hb1, eq_false hbt, if_true, if_false,
          bindOk, bindErr, pureEq] at h
        cases h
    · simp only [readCell, eq_false hb1, if_false, bindOk, bindErr] at h
      cases h
  · by_cases h4' : opcodeOf (s pc).data = 4
    · have h7 : opcodeOf (s pc).data < 7 := by omega
      simp only [eq_false h4, eq_true h4', eq_true h7, if_true, if_false] at h ⊢
      by_cases hb1 : pc + 1 ≤ 65535
      · by_cases hbt : (s (pc + 1)).data ≤ 65535
        · by_cases hd : (s pc).data = 0
          · simp only [readCell, modifyCell, eq_true hb1, eq_true hbt, if_true, bindOk, pureEq,
              eq_false (not_not_intro hd), if_false] at h ⊢
            exact (Except.ok.inj h).symm
          · by_cases hb2 : pc + 2 ≤ 65535
            · simp only [readCell, modifyCell, eq_true hb1, eq_true hbt, eq_true hb2, if_true,
                bindOk, pureEq, eq_true hd] at h ⊢
              exact (Except.ok.inj h).symm
            · simp only [readCell, modifyCell, eq_true hb1, eq_true hbt, eq_false hb2, if_true,
                if_false, bindOk, bindErr, pureEq, eq_true hd] at h
              cases h
        · simp only [readCell, modifyCell, eq_true hb1, eq_false hbt, if_true, if_false,
            bindOk, bindErr, pureEq] at h
          cases h
      · simp only [readCell, eq_false hb1, if_false, bindOk, bindErr] at h
        cases h
    · by_cases h6 : opcodeOf (s pc).data = 6
      · have h7 : opcodeOf (s pc).data < 7 := by omega
        simp only [eq_false h4, eq_false h4', eq_true h6, eq_true h7, if_true, if_false] at h ⊢
        by_cases hb1 : pc + 1 ≤ 65535
        · by_cases hbt : (s (pc + 1)).data ≤ 65535
          · by_cases hd : (s pc).data = 0
            · simp only [readCell, modifyCell, eq_true hb1, eq_true hbt, if_true, bindOk, pureEq,
                eq_false (not_not_intro hd), if_false] at h ⊢
              exact (Except.ok.inj h).symm
            · by_cases hb2 : pc + 2 ≤ 65535
              · simp only [readCell, modifyCell, eq_true hb1, eq_true hbt, eq_true hb2, if_true,
                  bindOk, pureEq, eq_true hd] at h ⊢
                exact (Except.ok.inj h).symm
              · simp only [readCell, modifyCell, eq_true hb1, eq_true hbt, eq_false hb2, if_true,
                  if_false, bindOk, bindErr, pureEq, eq_true hd] at h
                cases h
          · simp only [readCell, modifyCell, eq_true hb1, eq_false hbt, if_true, if_false,
              bindOk, bindErr, pureEq] at h
            cases h
        · simp only [readCell, eq_false hb1, if_false, bindOk, bindErr] at h
          cases h
      · by_cases h7 : opcodeOf (s pc).data < 7
        · simp only [eq_false h4, eq_false h4', eq_false h6, eq_true h7, if_true, if_false]
            at h ⊢
          by_cases hb1 : pc + 1 ≤ 65535
          · by_cases hd : (s pc).data = 0
            · simp only [modifyCell, eq_true hb1, if_true, bindOk, pureEq,
                eq_false (not_not_intro hd), if_false] at h ⊢
              exact (Except.ok.inj h).symm
            · by_cases hb2 : pc + 2 ≤ 65535
              · simp only [modifyCell, eq_true hb1, eq_true hb2, if_true, bindOk, pureEq,
                  eq_true hd] at h ⊢
                exact (Except.ok.inj h).symm
              · simp only [modifyCell, eq_true hb1, eq_false hb2, if_true, if_false, bindOk,
                  bindErr, pureEq, eq_true hd] at h
                cases h
          · simp only [modifyCell, eq_false hb1, if_false, bindOk, bindErr] at h
            cases h
        · simp only [eq_false h4, eq_false h4', eq_false h6, eq_false h7, if_false] at h ⊢
          by_cases hd : (s pc).data = 0
          · simp only [bindOk, pureEq, eq_false (not_not_intro hd), if_false] at h ⊢
            exact (Except.ok.inj h).symm
          · by_cases hb2 : pc + 1 ≤ 65535
            · simp only [modifyCell, eq_true hb2, if_true, bindOk, pureEq, eq_true hd] at h ⊢
              exact (Except.ok.inj h).symm
            · simp only [modifyCell, eq_false hb2, if_false, bindOk, bindErr, pureEq,
                eq_true hd] at h
              cases h

theorem one_instruction_bounds (s : CState) (pc : Nat) (r : CState × Nat)
    (h : one_instruction s pc = .ok r) :
    (opcodeOf (s pc).data < 7 → pc + 1 ≤ 65535) ∧
    ((opcodeOf (s pc).data < 4 ∨ opcodeOf (s pc).data = 4 ∨ opcodeOf (s pc).data = 6) →
      (s (pc + 1)).data ≤ 65535) ∧
    ((s pc).data ≠ 0 → (widthStep s pc (xrefStep s pc)).2 ≤ 65535) := by
  by_cases hpc : pc ≤ 65535
  case neg =>
    rw [one_instruction, readCell, if_neg hpc, bindErr] at h
    cases h
  rw [one_instruction, readCell, if_pos hpc] at h
  simp only [bindOk, pureEq] at h
  by_cases h4 : opcodeOf (s pc).data < 4
  · have h7 : opcodeOf (s pc).data < 7 := by omega
    simp only [eq_true h4, eq_true h7, if_true] at h
    by_cases hb1 : pc + 1 ≤ 65535
    · by_cases hbt : (s (pc + 1)).data ≤ 65535
      · refine ⟨fun _ => hb1, fun _ => hbt, fun hne => ?_⟩
        by_cases hb2 : (widthStep s pc (xrefStep s pc)).2 ≤ 65535
        · exact hb2
        · exfalso
          have hw : (widthStep s pc (xrefStep s pc)).2 = pc + 2 := by
            unfold widthStep
            rw [if_pos h7]
          rw [hw] at hb2
          simp only [readCell, modifyCell, eq_true hb1, eq_true hbt, eq_false hb2, if_true,
            if_false, bindOk, bindErr, pureEq, eq_true hne] at h
          cases h
      · simp only [readCell, modifyCell, eq_true hb1, eq_false hbt, if_true, if_false,
          bindOk, bindErr, pureEq] at h
        cases h
    · simp only [readCell, eq_false hb1, if_false, bindOk, bindErr] at h
      cases h
  · by_cases h4' : opcodeOf (s pc).data = 4
    · have h7 : opcodeOf (s pc).data < 7 := by omega
      simp only [eq_false h4, eq_true h4', eq_true h7, if_true, if_false] at h
      by_cases hb1 : pc + 1 ≤ 65535
      · by_cases hbt : (s (pc + 1)).data ≤ 65535
        · refine ⟨fun _ => hb1, fun _ => hbt, fun hne => ?_⟩
          by_cases hb2 : (widthStep s pc (xrefStep s pc)).2 ≤ 65535
          · exact hb2
          · exfalso
            have hw : (widthStep s pc (xrefStep s pc)).2 = pc + 2 := by
              unfold widthStep
              rw [if_pos h7]
            rw [hw] at hb2
            simp only [readCell, modifyCell, eq_true hb1, eq_true hbt, eq_false hb2, if_true,
              if_false, bindOk, bindErr, pureEq, eq_true hne] at h
            cases h
        · simp only [readCell, modifyCell, eq_true hb1, eq_false hbt, if_true, if_false,
            bindOk, bindErr, pureEq] at h
          cases h
      · simp only [readCell, eq_false hb1, if_false, bindOk, bindErr] at h
        cases h
    · by_cases h6 : opcodeOf (s pc).data = 6
      · have h7 : opcodeOf (s pc).data < 7 := by omega
        simp only [eq_false h4, eq_false h4', eq_true h6, eq_true h7, if_true, if_false] at h
        by_cases hb1 : pc + 1 ≤ 65535
        · by_cases hbt : (s (pc + 1)).data ≤ 65535
          · refine ⟨fun _ => hb1, fun _ => hbt, fun hne => ?_⟩
            by_cases hb2 : (widthStep s pc (xrefStep s pc)).2 ≤ 65535
            · exact hb2
            · exfalso
              have hw : (widthStep s pc (xrefStep s pc)).2 = pc + 2 := by
                unfold widthStep
                rw [if_pos h7]
              rw [hw] at hb2
              simp only [readCell, modifyCell, eq_true hb1, eq_true hbt, eq_false hb2,
                if_true, if_false, bindOk, bindErr, pureEq, eq_true hne] at h
              cases h
          · simp only [readCell, modifyCell, eq_true hb1, eq_false hbt, if_true, if_false,
              bindOk, bindErr, pureEq] at h
            cases h
        · simp only [readCell, eq_false hb1, if_false, bindOk, bindErr] at h
          cases h
      · by_cases h7 : opcodeOf (s pc).data < 7
        · simp only [eq_false h4, eq_false h4', eq_false h6, eq_true h7, if_true, if_false]
            at h
          by_cases hb1 : pc + 1 ≤ 65535
          · refine ⟨fun _ => hb1, fun ho => by rcases ho with ho | ho | ho <;> omega,
              fun hne => ?_⟩
            by_cases hb2 : (widthStep s pc (xrefStep s pc)).2 ≤ 65535
            · exact hb2
            · exfalso
              have hw : (widthStep s pc (xrefStep s pc)).2 = pc + 2 := by
                unfold widthStep
                rw [if_pos h7]
              rw [hw] at hb2
              simp only [modifyCell, eq_true hb1, eq_false hb2, if_true, if_false, bindOk,
                bindErr, pureEq, eq_true hne] at h
              cases h
          · simp only [modifyCell, eq_false hb1, if_false, bindOk, bindErr] at h
            cases h
        · simp only [eq_false h4, eq_false h4', eq_false h6, eq_false h7, if_false] at h
          refine ⟨fun h7' => absurd h7' h7,
            fun ho => by rcases ho with ho | ho | ho <;> omega, fun hne => ?_⟩
          by_cases hb2 : (widthStep s pc (xrefStep s pc)).2 ≤ 65535
          · exact hb2
          · exfalso
            have hw : (widthStep s pc (xrefStep s pc)).2 = pc + 1 := by
              unfold widthStep
              rw [if_neg h7]
            rw [hw] at hb2
            simp only [modifyCell, eq_false hb2, if_false, bindOk, bindErr, pureEq,
              eq_true hne] at h
            cases h

theorem oneInstrPure_pc (s : CState) (pc : Nat) :
    (oneInstrPure s pc).2 = if opcodeOf (s pc).data < 7 then pc + 2 else pc + 1 := by
  unfold oneInstrPure widthStep
  split_ifs <;> rfl

theorem setU_data (s : CState) (i : Nat) (f : Cell → Cell) (j : Nat)
    (hf : ∀ c, (f c).data = c.data) : ((setCellU s i f) j).data = (s j).data := by
  unfold setCellU
  split
  exacts [hf _, rfl]

theorem setU_label (s : CState) (i : Nat) (f : Cell → Cell) (j : Nat)
    (hf : ∀ c, (f c).label = c.label) : ((setCellU s i f) j).label = (s j).label := by
  unfold setCellU
  split
  exacts [hf _, rfl]

theorem setU_exec (s : CState) (i : Nat) (f : Cell → Cell) (j : Nat)
    (hf : ∀ c, (f c).exec_from_prev = c.exec_from_prev) :
    ((setCellU s i f) j).exec_from_prev = (s j).exec_from_prev := by
  unfold setCellU
  split
  exacts [hf _, rfl]

theorem setU_is2nd (s : CState) (i : Nat) (f : Cell → Cell) (j : Nat)
    (hf : ∀ c, (f c).is_2nd_word = c.is_2nd_word) :
    ((setCellU s i f) j).is_2nd_word = (s j).is_2nd_word := by
  unfold setCellU
  split
  exacts [hf _, rfl]

theorem setU_jump (s : CState) (i : Nat) (f : Cell → Cell) (j : Nat)
    (hf : ∀ c, (f c).jump_from = c.jump_from) :
    ((setCellU s i f) j).jump_from = (s j).jump_from := by
  unfold setCellU
  split
  exacts [hf _, rfl]

theorem setU_read (s : CState) (i : Nat) (f : Cell → Cell) (j : Nat)
    (hf : ∀ c, (f c).read_from = c.read_from) :
    ((setCellU s i f) j).read_from = (s j).read_from := by
  unfold setCellU
  split
  exacts [hf _, rfl]

theorem setU_write (s : CState) (i : Nat) (f : Cell → Cell) (j : Nat)
    (hf : ∀ c, (f c).write_from = c.write_from) :
    ((setCellU s i f) j).write_from = (s j).write_from := by
  unfold setCellU
  split
  exacts [hf _, rfl]

theorem setU_jumpApp (s : CState) (i pc j : Nat) :
    ∃ t, ((setCellU s i (fun c => { c with jump_from := c.jump_from ++ [pc] })) j).jump_from =
      (s j).jump_from ++ t := by
  unfold setCellU
  split
  · exact ⟨[pc], rfl⟩
  · exact ⟨[], (List.append_nil _).symm⟩

theorem setU_readApp (s : CState) (i pc j : Nat) :
    ∃ t, ((setCellU s i (fun c => { c with read_from := c.read_from ++ [pc] })) j).read_from =
      (s j).read_from ++ t := by
  unfold setCellU
  split
  · exact ⟨[pc], rfl⟩
  · exact ⟨[], (List.append_nil _).symm⟩

theorem setU_writeApp (s : CState) (i pc j : Nat) :
    ∃ t, ((setCellU s i (fun c => { c with write_from := c.write_from ++ [pc] })) j).write_from =
      (s j).write_from ++ t := by
  unfold setCellU
  split
  · exact ⟨[pc], rfl⟩
  · exact ⟨[], (List.append_nil _).symm⟩

theorem xref_data (s : CState) (pc j : Nat) : ((xrefStep s pc) j).data = (s j).data := by
  unfold xrefStep
  split_ifs <;> first
    | rfl
    | (rw [setU_data]; intro c; rfl)

theorem xref_label (s : CState) (pc j : Nat) : ((xrefStep s pc) j).label = (s j).label := by
  unfold xrefStep
  split_ifs <;> first
    | rfl
    | (rw [setU_label]; intro c; rfl)

theorem xref_exec (s : CState) (pc j : Nat) :
    ((xrefStep s pc) j).exec_from_prev = (s j).exec_from_prev := by
  unfold xrefStep
  split_ifs <;> first
    | rfl
    | (rw [setU_exec]; intro c; rfl)

theorem xref_is2nd (s : CState) (pc j : Nat) :
    ((xrefStep s pc) j).is_2nd_word = (s j).is_2nd_word := by
  unfold xrefStep
  split_ifs <;> first
    | rfl
    | (rw [setU_is2nd]; intro c; rfl)

theorem xref_jump (s : CState) (pc j : Nat) :
    ∃ t, ((xrefStep s pc) j).jump_from = (s j).jump_from ++ t := by
  unfold xrefStep
  split_ifs
  · exact setU_jumpApp s _ pc j
  · refine ⟨[], ?_⟩
    rw [setU_jump]
    · simp
    · intro c
      rfl
  · refine ⟨[], ?_⟩
    rw [setU_jump]
    · simp
    · intro c
      rfl
  · exact ⟨[], by simp⟩

theorem xref_read (s : CState) (pc j : Nat) :
    ∃ t, ((xrefStep s pc) j).read_from = (s j).read_from ++ t := by
  unfold xrefStep
  split_ifs
  · refine ⟨[], ?_⟩
    rw [setU_read]
    · simp
    · intro c
      rfl
  · exact setU_readApp s _ pc j
  · refine ⟨[], ?_⟩
    rw [setU_read]
    · simp
    · intro c
      rfl
  · exact ⟨[], by simp⟩

theorem xref_write (s : CState) (pc j : Nat) :
    ∃ t, ((xrefStep s pc) j).write_from = (s j).write_from ++ t := by
  unfold xrefStep
  split_ifs
  · refine ⟨[], ?_⟩
    rw [setU_write]
    · simp
    · intro c
      rfl
  · refine ⟨[], ?_⟩
    rw [setU_write]
    · simp
    · intro c
      rfl
  · exact setU_writeApp s _ pc j
  · exact ⟨[], by simp⟩

theorem width_data (s : CState) (pc : Nat) (s1 : CState) (j : Nat) :
    ((widthStep s pc s1).1 j).data = (s1 j).data := by
  unfold widthStep
  split_ifs <;> first
    | rfl
    | (rw [setU_data]; intro c; rfl)

theorem width_label (s : CState) (pc : Nat) (s1 : CState) (j : Nat) :
    ((widthStep s pc s1).1 j).label = (s1 j).label := by
  unfold widthStep
  split_ifs <;> first
    | rfl
    | (rw [setU_label]; intro c; rfl)

theorem width_exec (s : CState) (pc : Nat) (s1 : CState) (j : Nat) :
    ((widthStep s pc s1).1 j).exec_from_prev = (s1 j).exec_from_prev := by
  unfold widthStep
  split_ifs <;> first
    | rfl
    | (rw [setU_exec]; intro c; rfl)

theorem width_jump (s : CState) (pc : Nat) (s1 : CState) (j : Nat) :
    ((widthStep s pc s1).1 j).jump_from = (s1 j).jump_from := by
  unfold widthStep
  split_ifs <;> first
    | rfl
    | (rw [setU_jump]; intro c; rfl)

theorem width_read (s : CState) (pc : Nat) (s1 : CState) (j : Nat) :
    ((widthStep s pc s1).1 j).read_from = (s1 j).read_from := by
  unfold widthStep
  split_ifs <;> first
    | rfl
    | (rw [setU_read]; intro c; rfl)

theorem width_write (s : CState) (pc : Nat) (s1 : CState) (j : Nat) :
    ((widthStep s pc s1).1 j).write_from = (s1 j).write_from := by
  unfold widthStep
  split_ifs <;> first
    | rfl
    | (rw [setU_write]; intro c; rfl)

theorem setU_is2nd_true (s : CState) (i j : Nat) (h : (s j).is_2nd_word = true) :
    ((setCellU s i (fun t => { t with is_2nd_word := true })) j).is_2nd_word = true := by
  unfold setCellU
  split
  · rfl
  · exact h

theorem width_is2nd (s : CState) (pc : Nat) (s1 : CState) (j : Nat)
    (h : (s1 j).is_2nd_word = true) : ((widthStep s pc s1).1 j).is_2nd_word = true := by
  unfold widthStep
  split_ifs <;> dsimp only
  · exact setU_is2nd_true s1 (pc + 1) j h
  · exact h

theorem oneInstrPure_data (s : CState) (pc j : Nat) :
    ((oneInstrPure s pc).1 j).data = (s j).data := by
  unfold oneInstrPure
  split_ifs <;> dsimp only
  · rw [setU_data]
    · rw [width_data, xref_data]
    · intro c
      rfl
  · rw [width_data, xref_data]

theorem oneInstrPure_label (s : CState) (pc j : Nat) :
    ((oneInstrPure s pc).1 j).label = (s j).label := by
  unfold oneInstrPure
  split_ifs <;> dsimp only
  · rw [setU_label]
    · rw [width_label, xref_label]
    · intro c
      rfl
  · rw [width_label, xref_label]

theorem oneInstrPure_jump (s : CState) (pc j : Nat) :
    ∃ t, ((oneInstrPure s pc).1 j).jump_from = (s j).jump_from ++ t := by
  unfold oneInstrPure
  split_ifs <;> dsimp only
  · rw [setU_jump]
    · rw [width_jump]
      exact xref_jump s pc j
    · intro c
      rfl
  · rw [width_jump]
    exact xref_jump s pc j

theorem oneInstrPure_read (s : CState) (pc j : Nat) :
    ∃ t, ((oneInstrPure s pc).1 j).read_from = (s j).read_from ++ t := by
  unfold oneInstrPure
  split_ifs <;> dsimp only
  · rw [setU_read]
    · rw [width_read]
      exact xref_read s pc j
    · intro c
      rfl
  · rw [width_read]
    exact xref_read s pc j

theorem oneInstrPure_write (s : CState) (pc j : Nat) :
    ∃ t, ((oneInstrPure s pc).1 j).write_from = (s j).write_from ++ t := by
  unfold oneInstrPure
  split_ifs <;> dsimp only
  · rw [setU_write]
    · rw [width_write]
      exact xref_write s pc j
    · intro c
      rfl
  · rw [width_write]
    exact xref_write s pc j

theorem oneInstrPure_is2nd (s : CState) (pc j : Nat) (h : (s j).is_2nd_word = true) :
    ((oneInstrPure s pc).1 j).is_2nd_word = true := by
  have hx : ((xrefStep s pc) j).is_2nd_word = true := (xref_is2nd s pc j).trans h
  unfold oneInstrPure
  split_ifs <;> dsimp only
  · rw [setU_is2nd]
    · exact width_is2nd s pc _ j hx
    · intro c
      rfl
  · exact width_is2nd s pc _ j hx

theorem sweepAux_facts (last : Nat) :
    ∀ fuel s pc s', sweepAux last fuel s pc = .ok s' →
      (∀ j, (s' j).data = (s j).data) ∧ (∀ j, (s' j).label = (s j).label) ∧
      (∀ j, ∃ t, (s' j).jump_from = (s j).jump_from ++ t) ∧
      (∀ j, ∃ t, (s' j).read_from = (s j).read_from ++ t) ∧
      (∀ j, ∃ t, (s' j).write_from = (s j).write_from ++ t) ∧
      (∀ j, (s j).is_2nd_word = true → (s' j).is_2nd_word = true) := by
  intro fuel
  induction fuel with
  | zero =>
    intro s pc s' h
    cases h
  | succ f ih =>
    intro s pc s' h
    rw [sweepAux] at h
    by_cases hpc : pc ≤ last
    · rw [if_pos hpc] at h
      cases hoi : one_instruction s pc with
      | error e1 =>
        rw [hoi, bindErr] at h
        cases h
      | ok r =>
        rw [hoi, bindOk] at h
        obtain ⟨hr, -⟩ := one_instruction_inv s pc r hoi
        subst hr
        obtain ⟨d2, l2, j2, r2, w2, i2⟩ := ih _ _ _ h
        refine ⟨fun j => (d2 j).trans (oneInstrPure_data s pc j),
                fun j => (l2 j).trans (oneInstrPure_label s pc j), ?_, ?_, ?_, ?_⟩
        · intro j
          obtain ⟨t1, ht1⟩ := oneInstrPure_jump s pc j
          obtain ⟨t2, ht2⟩ := j2 j
          refine ⟨t1 ++ t2, ?_⟩
          rw [ht2, ht1, List.append_assoc]
        · intro j
          obtain ⟨t1, ht1⟩ := oneInstrPure_read s pc j
          obtain ⟨t2, ht2⟩ := r2 j
          refine ⟨t1 ++ t2, ?_⟩
          rw [ht2, ht1, List.append_assoc]
        · intro j
          obtain ⟨t1, ht1⟩ := oneInstrPure_write s pc j
          obtain ⟨t2, ht2⟩ := w2 j
          refine ⟨t1 ++ t2, ?_⟩
          rw [ht2, ht1, List.append_assoc]
        · intro j hj
          exact i2 j (oneInstrPure_is2nd s pc j hj)
    · rw [if_neg hpc, pureEq] at h
      injection h with h'
      subst h'
      exact ⟨fun j => rfl, fun j => rfl, fun j => ⟨[], by simp⟩, fun j => ⟨[], by simp⟩,
        fun j => ⟨[], by simp⟩, fun j hj => hj⟩

theorem preScanAux_facts (entry : Nat) :
    ∀ fuel s x s', preScanAux entry fuel s x = .ok s' →
      (∀ j, (s' j).data = (s j).data) ∧ (∀ j, (s' j).label = (s j).label) ∧
      (∀ j, ∃ t, (s' j).jump_from = (s j).jump_from ++ t) ∧
      (∀ j, ∃ t, (s' j).read_from = (s j).read_from ++ t) ∧
      (∀ j, ∃ t, (s' j).write_from = (s j).write_from ++ t) ∧
      (∀ j, (s j).is_2nd_word = true → (s' j).is_2nd_word = true) := by
  intro fuel
  induction fuel with
  | zero =>
    intro s x s' h
    cases h
  | succ f ih =>
    intro s x s' h
    rw [preScanAux] at h
    by_cases hx : x < entry
    · rw [if_pos hx] at h
      by_cases hr : x ≤ 65535
      case neg =>
        rw [readCell, if_neg hr, bindErr] at h
        cases h
      rw [readCell, if_pos hr, bindOk] at h
      by_cases hskip : (s x).jump_from.length = 0 ∧ (s x).exec_from_prev = none
      · rw [if_pos hskip] at h
        exact ih _ _ _ h
      · rw [if_neg hskip] at h
        cases hoi : one_instruction s x with
        | error e1 =>
          rw [hoi, bindErr] at h
          cases h
        | ok r =>
          rw [hoi, bindOk] at h
          obtain ⟨hrr, -⟩ := one_instruction_inv s x r hoi
          subst hrr
          obtain ⟨d2, l2, j2, r2, w2, i2⟩ := ih _ _ _ h
          refine ⟨fun j => (d2 j).trans (oneInstrPure_data s x j),
                  fun j => (l2 j).trans (oneInstrPure_label s x j), ?_, ?_, ?_, ?_⟩
          · intro j
            obtain ⟨t1, ht1⟩ := oneInstrPure_jump s x j
            obtain ⟨t2, ht2⟩ := j2 j
            refine ⟨t1 ++ t2, ?_⟩
            rw [ht2, ht1, List.append_assoc]
          · intro j
            obtain ⟨t1, ht1⟩ := oneInstrPure_read s x j
            obtain ⟨t2, ht2⟩ := r2 j
            refine ⟨t1 ++ t2, ?_⟩
            rw [ht2, ht1, List.append_assoc]
          · intro j
            obtain ⟨t1, ht1⟩ := oneInstrPure_write s x j
            obtain ⟨t2, ht2⟩ := w2 j
            refine ⟨t1 ++ t2, ?_⟩
            rw [ht2, ht1, List.append_assoc]
          · intro j hj
            exact i2 j (oneInstrPure_is2nd s x j hj)
    · rw [if_neg hx, pureEq] at h
      injection h with h'
      subst h'
      exact ⟨fun j => rfl, fun j => rfl, fun j => ⟨[], by simp⟩, fun j => ⟨[], by simp⟩,
        fun j => ⟨[], by simp⟩, fun j hj => hj⟩

theorem labelAux_spec (cfg : Config) (last : Nat) :
    ∀ fuel s pc s', labelAux cfg last fuel s pc = .ok s' →
    ∀ j, s' j = if pc ≤ j ∧ j ≤ last ∧ (s j).is_2nd_word = false ∧ (s j).label = none ∧
                  (s j).jump_from.length ≠ 0
                then { s j with label := some (locLabel cfg j) } else s j := by
  intro fuel
  induction fuel with
  | zero =>
    intro s pc s' h
    cases h
  | succ f ih =>
    intro s pc s' h
    rw [labelAux] at h
    by_cases hpc : pc ≤ last
    · rw [if_pos hpc] at h
      by_cases hr : pc ≤ 65535
      case neg =>
        rw [readCell, if_neg hr, bindErr] at h
        cases h
      rw [readCell, if_pos hr, bindOk] at h
      by_cases hcond : (s pc).is_2nd_word = false ∧ (s pc).label = none ∧
          (s pc).jump_from.length ≠ 0
      · rw [if_pos hcond, modifyCell, if_pos hr, bindOk] at h
        have hIH := ih _ _ _ h
        intro j
        rw [hIH j]
        by_cases hj : j = pc
        · subst hj
          rw [if_neg (fun hh => absurd hh.1 (by omega)),
            if_pos ⟨Nat.le_refl j, hpc, hcond.1, hcond.2.1, hcond.2.2⟩]
          unfold setCellU
          rw [if_pos rfl]
        · have hs1 : setCellU s pc
              (fun t => { t with label := some (locLabel cfg pc) }) j = s j := by
            unfold setCellU
            rw [if_neg hj]
          rw [hs1]
          exact if_congr ⟨fun hh => ⟨by omega, hh.2⟩, fun hh => ⟨by omega, hh.2⟩⟩ rfl rfl
      · rw [if_neg hcond, pureEq, bindOk] at h
        have hIH := ih _ _ _ h
        intro j
        rw [hIH j]
        by_cases hj : j = pc
        · subst hj
          rw [if_neg (fun hh => absurd hh.1 (by omega)),
            if_neg (fun hh => hcond ⟨hh.2.2.1, hh.2.2.2.1, hh.2.2.2.2⟩)]
        · exact if_congr ⟨fun hh => ⟨by omega, hh.2⟩, fun hh => ⟨by omega, hh.2⟩⟩ rfl rfl
    · rw [if_neg hpc, pureEq] at h
      injection h with h'
      subst h'
      intro j
      rw [if_neg (fun hh => hpc (Nat.le_trans hh.1 hh.2.1))]

theorem resolveEntry_inv (cfg : Config) (s : CState) (s' : CState) (e : Nat)
    (h : resolveEntry cfg s = .ok (s', e)) :
    ((s 0).data ≠ 0 ∧ s' = s ∧ e = 0) ∨
    ((s 0).data = 0 ∧ e = (s 1).data ∧ (s 1).data ≤ 65535 ∧
      s' = setCellU (setCellU s (s 1).data
            (fun c => { c with label := some (entrypointLabel cfg (s 1).data) }))
          (s 1).data (fun c => { c with jump_from := c.jump_from ++ [0] })) := by
  rw [resolveEntry, readCell, if_pos (by omega), bindOk] at h
  by_cases h0 : (s 0).data = 0
  · rw [if_pos h0, readCell, if_pos (by omega), bindOk] at h
    by_cases hb : (s 1).data ≤ 65535
    · rw [modifyCell, if_pos hb, bindOk, modifyCell, if_pos hb, bindOk, pureEq] at h
      injection h with h'
      injection h' with hA hB
      right
      exact ⟨h0, hB.symm, hb, hA.symm⟩
    · rw [modifyCell, if_neg hb, bindErr] at h
      cases h
  · rw [if_neg h0, pureEq] at h
    injection h with h'
    injection h' with hA hB
    left
    exact ⟨h0, hA.symm, hB.symm⟩

theorem prepPhases_inv (cfg : Config) (s : CState) (res : CState × Nat × Nat)
    (h : prepPhases cfg s = .ok res) :
    ∃ s1 last s2 s3,
      resolveEntry cfg s = .ok (s1, res.2.1) ∧
      findLast (fun i => (s1 i).data) = .ok last ∧
      sweepAux last F s1 res.2.1 = .ok s2 ∧
      preScanAux res.2.1 F s2 0 = .ok s3 ∧
      labelAux cfg last F s3 res.2.1 = .ok res.1 ∧
      res.2.2 = last := by
  rw [prepPhases] at h
  cases h1 : resolveEntry cfg s with
  | error e1 =>
    rw [h1, bindErr] at h
    cases h
  | ok r1 =>
    rw [h1, bindOk] at h
    cases h2 : findLast (fun i => (r1.1 i).data) with
    | error e2 =>
      rw [h2, bindErr] at h
      cases h
    | ok lastv =>
      rw [h2, bindOk] at h
      cases h3 : sweepAux lastv F r1.1 r1.2 with
      | error e3 =>
        rw [h3, bindErr] at h
        cases h
      | ok s2 =>
        rw [h3, bindOk] at h
        cases h4 : preScanAux r1.2 F s2 0 with
        | error e4 =>
          rw [h4, bindErr] at h
          cases h
        | ok s3 =>
          rw [h4, bindOk] at h
          cases h5 : labelAux cfg lastv F s3 r1.2 with
          | error e5 =>
            rw [h5, bindErr] at h
            cases h
          | ok s4 =>
            rw [h5, bindOk, pureEq] at h
            injection h with h'
            subst h'
            exact ⟨r1.1, lastv, s2, s3, rfl, h2, h3, h4, h5, rfl⟩

theorem prepPhases_eval (cfg : Config) (s : CState) (L : Nat) (hL : L ≤ 65535)
    (hnz : (s L).data ≠ 0) (hz : ∀ j, L < j → j ≤ 65535 → (s j).data = 0) :
    prepPhases cfg s = (do
      let r ← resolveEntry cfg s
      let s2 ← sweepAux L F r.1 r.2
      let s3 ← preScanAux r.2 F s2 0
      let s4 ← labelAux cfg L F s3 r.2
      pure (s4, r.2, L)) := by
  rw [prepPhases]
  cases h1 : resolveEntry cfg s with
  | error e1 =>
    rw [bindErr, bindErr]
  | ok r1 =>
    rw [bindOk, bindOk]
    have hd : ∀ j, (r1.1 j).data = (s j).data := by
      refine resolveEntry_data cfg s r1.1 r1.2 ?_
      rw [h1]
    have hfl : findLast (fun i => (r1.1 i).data) = .ok L := by
      refine findLast_eq _ L hL ?_ ?_
      · rw [hd L]
        exact hnz
      · intro j hj1 hj2
        rw [hd j]
        exact hz j hj1 hj2
    rw [hfl, bindOk]

def cfgH : Config := ⟨Style.hex, false, false, false, false⟩

def ex6 : Nat → Nat := fun i => if i = 0 then 0 else if i = 1 then 2 else if i = 2 then 256 else 0

theorem ex6_hz : ∀ j, 2 < j → j ≤ 65535 → (freshCells ex6 j).data = 0 := by
  intro j h1 h2
  show ex6 j = 0
  rw [ex6, if_neg (by omega), if_neg (by omega), if_neg (by omega)]

/-- Configurations used by concrete witnesses and counterexamples. -/
def cfgD : Config := ⟨Style.deci, false, false, false, false⟩

theorem ex6_hz' : ∀ j, 2 < j → j ≤ 65535 → ex6 j = 0 := by
  intro j h1 h2
  rw [ex6, if_neg (by omega), if_neg (by omega), if_neg (by omega)]

/-- C8 (amended): provided at least one word of the image is nonzero, the
downward scan sets `last` to the highest nonzero address, and any successful
preparation reports exactly that address; on the all-zero image the scan
instead runs off the array (see the counterexample). -/
theorem last_is_highest_nonzero (cfg : Config) (d : Nat → Nat) (L : Nat) (hL : L ≤ 65535)
    (hnz : d L ≠ 0) (hz : ∀ j, L < j → j ≤ 65535 → d j = 0) :
    findLast d = .ok L ∧ ∀ s e l, preparation cfg d = .ok (s, e, l) → l = L := by
  refine ⟨findLast_eq d L hL hnz hz, ?_⟩
  intro s e l h
  obtain ⟨s1, lastv, s2, s3, h1, h2, h3, h4, h5, h6⟩ :=
    prepPhases_inv cfg (freshCells d) (s, e, l) h
  have hd := resolveEntry_data cfg (freshCells d) s1 e h1
  have hfl : findLast (fun i => (s1 i).data) = .ok L := by
    refine findLast_eq _ L hL ?_ ?_
    · rw [hd L]
      exact hnz
    · intro j a b
      rw [hd j]
      exact hz j a b
  rw [hfl] at h2
  injection h2 with h2'
  have h6' : l = lastv := h6
  omega

theorem last_is_highest_nonzero_witness :
    ((2 : Nat) ≤ 65535 ∧ ex6 2 ≠ 0 ∧ ∀ j, 2 < j → j ≤ 65535 → ex6 j = 0) ∧
    (findLast ex6 = .ok 2 ∧ ∀ s e l, preparation cfgH ex6 = .ok (s, e, l) → l = 2) :=
  ⟨⟨by omega, by decide, ex6_hz'⟩,
   last_is_highest_nonzero cfgH ex6 2 (by omega) (by decide) ex6_hz'⟩

/-- The trace state after the entry-vector branch of `preparation` on the
all-zero image. -/
def zeroS1 : CState :=
  setCellU (setCellU (freshCells (fun _ => 0)) 0
      (fun c => { c with label := some (entrypointLabel cfgH 0) }))
    0 (fun c => { c with jump_from := c.jump_from ++ [0] })

/-- C8 counterexample: on the all-zero image the downward scan for `last`
never finds a nonzero word; the Python loop runs off the array and the
tracer dies with an IndexError instead of setting `last`. -/
theorem all_zero_image_crashes : preparation cfgH (fun _ => 0) = .error errIndex := by
  rw [preparation, prepPhases]
  have h1 : resolveEntry cfgH (freshCells (fun _ => 0)) = .ok (zeroS1, 0) := rfl
  rw [h1, bindOk]
  have h2 : findLast (fun i => (zeroS1 i).data) = .error errIndex := by
    rw [findLast]
    apply findLastAux_all_zero
    intro j hj
    show (zeroS1 j).data = 0
    rw [zeroS1]
    unfold setCellU freshCells
    split_ifs <;> rfl
  rw [h2, bindErr]

theorem setU_self (s : CState) (i : Nat) (f : Cell → Cell) : (setCellU s i f) i = f (s i) := by
  unfold setCellU
  rw [if_pos rfl]

theorem setU_other (s : CState) (i j : Nat) (f : Cell → Cell) (h : j ≠ i) :
    (setCellU s i f) j = s j := by
  unfold setCellU
  rw [if_neg h]

theorem oneInstrPure_op4 (s : CState) (pc : Nat) (h : opcodeOf (s pc).data = 4) :
    oneInstrPure s pc = (setCellU (setCellU (setCellU s ((s (pc + 1)).data)
      (fun t => { t with read_from := t.read_from ++ [pc] })) (pc + 1)
      (fun t => { t with is_2nd_word := true })) (pc + 2)
      (fun t => { t with exec_from_prev := some pc }), pc + 2) := by
  have hd : (s pc).data ≠ 0 := by
    intro hzz
    rw [hzz] at h
    exact absurd h (by decide)
  unfold oneInstrPure widthStep xrefStep
  simp only [eq_false (show ¬ opcodeOf (s pc).data < 4 by omega), eq_true h,
    eq_true (show opcodeOf (s pc).data < 7 by omega), eq_true hd, if_true, if_false]

theorem oneInstrPure_op6 (s : CState) (pc : Nat) (h : opcodeOf (s pc).data = 6) :
    oneInstrPure s pc = (setCellU (setCellU (setCellU s ((s (pc + 1)).data)
      (fun t => { t with write_from := t.write_from ++ [pc] })) (pc + 1)
      (fun t => { t with is_2nd_word := true })) (pc + 2)
      (fun t => { t with exec_from_prev := some pc }), pc + 2) := by
  have hd : (s pc).data ≠ 0 := by
    intro hzz
    rw [hzz] at h
    exact absurd h (by decide)
  unfold oneInstrPure widthStep xrefStep
  simp only [eq_false (show ¬ opcodeOf (s pc).data < 4 by omega),
    eq_false (show ¬ opcodeOf (s pc).data = 4 by omega), eq_true h,
    eq_true (show opcodeOf (s pc).data < 7 by omega), eq_true hd, if_true, if_false]

theorem oneInstrPure_ge7 (s : CState) (pc : Nat) (h : 7 ≤ opcodeOf (s pc).data) :
    oneInstrPure s pc =
      (setCellU s (pc + 1) (fun t => { t with exec_from_prev := some pc }), pc + 1) := by
  have hd : (s pc).data ≠ 0 := by
    intro hzz
    rw [hzz] at h
    exact absurd h (by decide)
  unfold oneInstrPure widthStep xrefStep
  simp only [eq_false (show ¬ opcodeOf (s pc).data < 4 by omega),
    eq_false (show ¬ opcodeOf (s pc).data = 4 by omega),
    eq_false (show ¬ opcodeOf (s pc).data = 6 by omega),
    eq_false (show ¬ opcodeOf (s pc).data < 7 by omega), eq_true hd, if_true, if_false]

theorem one_instruction_op4 (s : CState) (pc : Nat) (hpc : pc ≤ 65535)
    (hb1 : pc + 1 ≤ 65535) (hbt : (s (pc + 1)).data ≤ 65535) (hb2 : pc + 2 ≤ 65535)
    (h : opcodeOf (s pc).data = 4) :
    one_instruction s pc = .ok (setCellU (setCellU (setCellU s ((s (pc + 1)).data)
      (fun t => { t with read_from := t.read_from ++ [pc] })) (pc + 1)
      (fun t => { t with is_2nd_word := true })) (pc + 2)
      (fun t => { t with exec_from_prev := some pc }), pc + 2) := by
  rw [one_instruction_eq_ok s pc hpc (fun _ => hb1) (fun _ => hbt) ?hex, oneInstrPure_op4 s pc h]
  case hex =>
    intro _
    unfold widthStep
    split_ifs <;> omega

theorem one_instruction_op6 (s : CState) (pc : Nat) (hpc : pc ≤ 65535)
    (hb1 : pc + 1 ≤ 65535) (hbt : (s (pc + 1)).data ≤ 65535) (hb2 : pc + 2 ≤ 65535)
    (h : opcodeOf (s pc).data = 6) :
    one_instruction s pc = .ok (setCellU (setCellU (setCellU s ((s (pc + 1)).data)
      (fun t => { t with write_from := t.write_from ++ [pc] })) (pc + 1)
      (fun t => { t with is_2nd_word := true })) (pc + 2)
      (fun t => { t with exec_from_prev := some pc }), pc + 2) := by
  rw [one_instruction_eq_ok s pc hpc (fun _ => hb1) (fun _ => hbt) ?hex, oneInstrPure_op6 s pc h]
  case hex =>
    intro _
    unfold widthStep
    split_ifs <;> omega

theorem one_instruction_ge7 (s : CState) (pc : Nat) (hpc : pc ≤ 65535)
    (hb1 : pc + 1 ≤ 65535) (h : 7 ≤ opcodeOf (s pc).data) :
    one_instruction s pc =
      .ok (setCellU s (pc + 1) (fun t => { t with exec_from_prev := some pc }), pc + 1) := by
  rw [one_instruction_eq_ok s pc hpc (fun h7 => absurd h7 (by omega))
      (fun ho => by omega) ?hex, oneInstrPure_ge7 s pc h]
  case hex =>
    intro _
    unfold widthStep
    rw [if_neg (by omega)]
    exact hb1

/-- The image used by the C2 counterexample: an opcode-25 word at address 0
followed by a CLC at address 1. -/
def ex2 : Nat → Nat := fun i => if i = 0 then 6400 else if i = 1 then 5632 else 0

theorem ex2_hz : ∀ j, 1 < j → j ≤ 65535 → (freshCells ex2 j).data = 0 := by
  intro j h1 h2
  show ex2 j = 0
  rw [ex2, if_neg (by omega), if_neg (by omega)]

/-- C2 counterexample: with the opcode-25 word `0x1900` at address 0 (whose
following word holds 5632), the claim predicts a two-word instruction whose
operand cell 5632 gains a `read_from` entry 0 and whose cell 1 is marked as a
second word; the code instead decodes one word, leaves `read_from` empty
everywhere, and never marks cell 1. -/
theorem load_indirect_no_xref :
    entryOf (preparation cfgH ex2) = some 0 ∧ lastOf (preparation cfgH ex2) = some 1 ∧
    cellAt (preparation cfgH ex2) 5632 = some { data := 0 } ∧
    cellAt (preparation cfgH ex2) 1 =
      some { data := 5632, exec_from_prev := some 0 } := by
  refine ⟨?_, ?_, ?_, ?_⟩ <;>
    · rw [preparation, prepPhases_eval cfgH (freshCells ex2) 1 (by omega) (by decide) ex2_hz]
      decide

/-- C2 (amended): in `one_instruction` (the step both sweeps use), opcodes 4
and 6 decode as two-word instructions whose operand cell gains a `read_from`
(opcode 4) or `write_from` (opcode 6) entry equal to the instruction address,
with the following cell marked as a second word; but opcode 25 decodes as a
one-word instruction that records no cross-reference at all and marks
nothing. -/
theorem load_store_xref_effects (s : CState) (pc : Nat) (hpc : pc ≤ 65535)
    (hb1 : pc + 1 ≤ 65535) (hbt : (s (pc + 1)).data ≤ 65535) (hb2 : pc + 2 ≤ 65535) :
    (opcodeOf (s pc).data = 4 →
      ∃ s', one_instruction s pc = .ok (s', pc + 2) ∧
        (s' ((s (pc + 1)).data)).read_from = (s ((s (pc + 1)).data)).read_from ++ [pc] ∧
        (s' (pc + 1)).is_2nd_word = true) ∧
    (opcodeOf (s pc).data = 6 →
      ∃ s', one_instruction s pc = .ok (s', pc + 2) ∧
        (s' ((s (pc + 1)).data)).write_from = (s ((s (pc + 1)).data)).write_from ++ [pc] ∧
        (s' (pc + 1)).is_2nd_word = true) ∧
    (opcodeOf (s pc).data = 25 →
      ∃ s', one_instruction s pc = .ok (s', pc + 1) ∧
        ∀ j, (s' j).jump_from = (s j).jump_from ∧ (s' j).read_from = (s j).read_from ∧
          (s' j).write_from = (s j).write_from ∧ (s' j).is_2nd_word = (s j).is_2nd_word) := by
  refine ⟨?_, ?_, ?_⟩
  · intro h4
    refine ⟨_, one_instruction_op4 s pc hpc hb1 hbt hb2 h4, ?_, ?_⟩
    · rw [setU_read]
      · rw [setU_read]
        · rw [setU_self]
        · intro c
          rfl
      · intro c
        rfl
    · rw [setU_is2nd]
      · rw [setU_self]
      · intro c
        rfl
  · intro h6
    refine ⟨_, one_instruction_op6 s pc hpc hb1 hbt hb2 h6, ?_, ?_⟩
    · rw [setU_write]
      · rw [setU_write]
        · rw [setU_self]
        · intro c
          rfl
      · intro c
        rfl
    · rw [setU_is2nd]
      · rw [setU_self]
      · intro c
        rfl
  · intro h25
    refine ⟨_, one_instruction_ge7 s pc hpc hb1 (by omega), fun j => ?_⟩
    refine ⟨?_, ?_, ?_, ?_⟩
    · rw [setU_jump]
      intro c
      rfl
    · rw [setU_read]
      intro c
      rfl
    · rw [setU_write]
      intro c
      rfl
    · rw [setU_is2nd]
      intro c
      rfl

theorem load_store_xref_effects_witness :
    ((0 : Nat) ≤ 65535 ∧ (0 : Nat) + 1 ≤ 65535 ∧ (freshCells ex2 (0 + 1)).data ≤ 65535 ∧
      (0 : Nat) + 2 ≤ 65535) ∧
    (opcodeOf (freshCells ex2 0).data = 25 →
      ∃ s', one_instruction (freshCells ex2) 0 = .ok (s', 0 + 1) ∧
        ∀ j, (s' j).jump_from = (freshCells ex2 j).jump_from ∧
          (s' j).read_from = (freshCells ex2 j).read_from ∧
          (s' j).write_from = (freshCells ex2 j).write_from ∧
          (s' j).is_2nd_word = (freshCells ex2 j).is_2nd_word) :=
  ⟨⟨by omega, by omega, by decide, by omega⟩,
   (load_store_xref_effects (freshCells ex2) 0 (by omega) (by omega) (by decide)
      (by omega)).2.2⟩

/-- Whether a preparation result is a success (decidably). -/
def isOkB (r : Except String (CState × Nat × Nat)) : Bool :=
  match r with
  | .ok _ => true
  | .error _ => false

/-- The label a preparation result holds at an address. -/
def labelAt (r : Except String (CState × Nat × Nat)) (i : Nat) : Option (Option (List Char)) :=
  (cellAt r i).map Cell.label

/-- The jump_from list a preparation result holds at an address. -/
def jumpAt (r : Except String (CState × Nat × Nat)) (i : Nat) : Option (List Nat) :=
  (cellAt r i).map Cell.jump_from

/-- The is_2nd_word flag a preparation result holds at an address. -/
def is2ndAt (r : Except String (CState × Nat × Nat)) (i : Nat) : Option Bool :=
  (cellAt r i).map Cell.is_2nd_word

theorem labelAux_fields (cfg : Config) (last fuel : Nat) (s : CState) (pc : Nat) (s' : CState)
    (h : labelAux cfg last fuel s pc = .ok s') :
    ∀ j, (s' j).data = (s j).data ∧ (s' j).exec_from_prev = (s j).exec_from_prev ∧
      (s' j).is_2nd_word = (s j).is_2nd_word ∧ (s' j).jump_from = (s j).jump_from ∧
      (s' j).read_from = (s j).read_from ∧ (s' j).write_from = (s j).write_from := by
  intro j
  rw [labelAux_spec cfg last fuel s pc s' h j]
  split <;> exact ⟨rfl, rfl, rfl, rfl, rfl, rfl⟩

/-- C7: entry resolution.  With an entry vector (`cells[0].data == 0`) the
entry is the word at address 1, and after any successful preparation the cell
at that address carries the `Entrypoint_` label and a jump origin 0 at the
head of its `jump_from` list; otherwise the entry is 0 and entry resolution
leaves the freshly loaded state untouched. -/
theorem entry_resolution (cfg : Config) (d : Nat → Nat)
    (hok : isOkB (preparation cfg d) = true) :
    (d 0 = 0 → entryOf (preparation cfg d) = some (d 1) ∧
       labelAt (preparation cfg d) (d 1) = some (some (entrypointLabel cfg (d 1))) ∧
       (∃ t, jumpAt (preparation cfg d) (d 1) = some (0 :: t))) ∧
    (d 0 ≠ 0 → entryOf (preparation cfg d) = some 0 ∧
       resolveEntry cfg (freshCells d) = .ok (freshCells d, 0)) := by
  cases hp : preparation cfg d with
  | error e1 =>
    rw [hp] at hok
    simp [isOkB] at hok
  | ok res =>
    obtain ⟨s1, lastv, s2, s3, h1, h2, h3, h4, h5, h6⟩ :=
      prepPhases_inv cfg (freshCells d) res hp
    obtain ⟨-, l3, j3, -, -, -⟩ := sweepAux_facts lastv F s1 res.2.1 s2 h3
    obtain ⟨-, l4, j4, -, -, -⟩ := preScanAux_facts res.2.1 F s2 0 s3 h4
    have hlf := labelAux_fields cfg lastv F s3 res.2.1 res.1 h5
    rcases resolveEntry_inv cfg (freshCells d) s1 res.2.1 h1 with
      ⟨hne, hs1, he⟩ | ⟨hz0, he, hb, hs1⟩
    · constructor
      · intro hd0
        exact absurd hd0 hne
      · intro _
        constructor
        · simp only [entryOf]
          rw [he]
        · rw [hs1, he] at h1
          exact h1
    · have hfd1 : (freshCells d 1).data = d 1 := rfl
      have hcell : s1 (d 1) =
          { data := d (d 1), label := some (entrypointLabel cfg (d 1)),
            exec_from_prev := none, is_2nd_word := false, read_from := [],
            write_from := [], jump_from := [0] } := by
        rw [hs1, hfd1, setU_self, setU_self]
        rfl
      constructor
      · intro _
        have hl3 : (s3 (d 1)).label = some (entrypointLabel cfg (d 1)) := by
          rw [l4, l3, hcell]
        refine ⟨?_, ?_, ?_⟩
        · simp only [entryOf]
          rw [he, hfd1]
        · simp only [labelAt, cellAt, Option.map_some']
          congr 1
          rw [labelAux_spec cfg lastv F s3 res.2.1 res.1 h5 (d 1),
            if_neg (fun hh => by rw [hl3] at hh; exact absurd hh.2.2.2.1 (by simp)), hl3]
        · obtain ⟨t2, ht2⟩ := j3 (d 1)
          obtain ⟨t3, ht3⟩ := j4 (d 1)
          refine ⟨t2 ++ t3, ?_⟩
          simp only [jumpAt, cellAt, Option.map_some']
          congr 1
          rw [(hlf (d 1)).2.2.2.1, ht3, ht2, hcell]
          rfl
      · intro hd0
        exact absurd hz0 hd0

theorem entry_resolution_witness :
    isOkB (preparation cfgH ex6) = true ∧
    ((ex6 0 = 0 → entryOf (preparation cfgH ex6) = some (ex6 1) ∧
       labelAt (preparation cfgH ex6) (ex6 1) = some (some (entrypointLabel cfgH (ex6 1))) ∧
       (∃ t, jumpAt (preparation cfgH ex6) (ex6 1) = some (0 :: t))) ∧
     (ex6 0 ≠ 0 → entryOf (preparation cfgH ex6) = some 0 ∧
       resolveEntry cfgH (freshCells ex6) = .ok (freshCells ex6, 0))) := by
  have h : isOkB (preparation cfgH ex6) = true := by
    rw [preparation, prepPhases_eval cfgH (freshCells ex6) 2 (by omega) (by decide) ex6_hz]
    decide
  exact ⟨h, entry_resolution cfgH ex6 h⟩

/-- C6 counterexample: in the image 0 ↦ 0, 1 ↦ 2, 2 ↦ 0x0100 (a JEQ at the
entry whose operand word holds address 0), address 0 ends the trace with a
nonempty `jump_from`, is not a second word, and still carries no label —
the label pass only covers `[entry, last]`. -/
theorem pre_entry_jump_target_unlabelled :
    jumpAt (preparation cfgH ex6) 0 = some [2] ∧
    is2ndAt (preparation cfgH ex6) 0 = some false ∧
    labelAt (preparation cfgH ex6) 0 = some none := by
  refine ⟨?_, ?_, ?_⟩ <;>
    · rw [preparation, prepPhases_eval cfgH (freshCells ex6) 2 (by omega) (by decide) ex6_hz]
      decide

/-- C6 (amended): after a successful trace, every address inside
`[entry, last]` that is not marked as a second word and has a nonempty
`jump_from` list carries a label: the auto label `loc_<addr>` when the cell
had none (labels are assigned only to unlabelled cells), and otherwise its
pre-existing label, which can only be the entry vector's `Entrypoint` label
at address `cells[1].data`.  Jump targets outside `[entry, last]` receive no
label (see the counterexample). -/
theorem loc_label_assignment (cfg : Config) (d : Nat → Nat) (a e l : Nat)
    (he : entryOf (preparation cfg d) = some e) (hl : lastOf (preparation cfg d) = some l)
    (ha1 : e ≤ a) (ha2 : a ≤ l)
    (h2nd : is2ndAt (preparation cfg d) a = some false)
    (hjmp : jumpAt (preparation cfg d) a ≠ some []) :
    labelAt (preparation cfg d) a = some (some (locLabel cfg a)) ∨
    (d 0 = 0 ∧ a = d 1 ∧ labelAt (preparation cfg d) a =
      some (some (entrypointLabel cfg (d 1)))) := by
  cases hp : preparation cfg d with
  | error e1 =>
    rw [hp] at he
    simp [entryOf] at he
  | ok res =>
    obtain ⟨sF, eF, lF⟩ := res
    rw [hp] at he hl h2nd hjmp
    simp only [entryOf] at he
    simp only [lastOf] at hl
    simp only [is2ndAt, cellAt, Option.map_some', Option.some.injEq] at h2nd
    simp only [jumpAt, cellAt, Option.map_some'] at hjmp
    injection he with he
    injection hl with hl
    obtain ⟨s1, lastv, s2, s3, h1, h2, h3, h4, h5, h6⟩ :=
      prepPhases_inv cfg (freshCells d) (sF, eF, lF) hp
    have hlf := labelAux_fields cfg lastv F s3 eF sF h5
    have hspec := labelAux_spec cfg lastv F s3 eF sF h5 a
    have h2nd' : (s3 a).is_2nd_word = false := by
      rw [← (hlf a).2.2.1]
      exact h2nd
    have hjmp' : (s3 a).jump_from.length ≠ 0 := by
      intro hlen
      apply hjmp
      rw [(hlf a).2.2.2.1, List.length_eq_zero.mp hlen]
    simp only [labelAt, cellAt, Option.map_some', Option.some.injEq]
    have h6' : lF = lastv := h6
    have hae : eF ≤ a := by
      rw [he]
      exact ha1
    have hal : a ≤ lastv := by omega
    cases hlab : (s3 a).label with
    | none =>
      left
      rw [hspec, if_pos ⟨hae, hal, h2nd', hlab, hjmp'⟩]
    | some lab =>
      have hfin : (sF a).label = some lab := by
        rw [hspec, if_neg (fun hh => by rw [hlab] at hh; exact absurd hh.2.2.2.1 (by simp)),
          hlab]
      obtain ⟨-, l3, -, -, -, -⟩ := sweepAux_facts lastv F s1 eF s2 h3
      obtain ⟨-, l4, -, -, -, -⟩ := preScanAux_facts eF F s2 0 s3 h4
      have hs1lab : (s1 a).label = some lab := by
        rw [← l3, ← l4]
        exact hlab
      rcases resolveEntry_inv cfg (freshCells d) s1 eF h1 with
        ⟨hne, hs1, hee⟩ | ⟨hz0, hee, hb, hs1⟩
      · rw [hs1] at hs1lab
        exact absurd hs1lab (by simp [freshCells])
      · by_cases ha : a = (freshCells d 1).data
        · right
          have hcell : (s1 a).label = some (entrypointLabel cfg (d 1)) := by
            rw [hs1, ha, setU_label]
            · rw [setU_self]
              rfl
            · intro c
              rfl
          refine ⟨hz0, ha, ?_⟩
          rw [hfin, ← hs1lab, hcell]
        · rw [hs1, setU_other _ _ _ _ ha, setU_other _ _ _ _ ha] at hs1lab
          exact absurd hs1lab (by simp [freshCells])

/-- The image used by the C6 witness: a JEQ at address 0 targeting itself
through the zero operand word. -/
def exL : Nat → Nat := fun i => if i = 0 then 256 else 0

theorem exL_hz : ∀ j, 0 < j → j ≤ 65535 → (freshCells exL j).data = 0 := by
  intro j h1 h2
  show exL j = 0
  rw [exL, if_neg (by omega)]

theorem loc_label_assignment_witness :
    (entryOf (preparation cfgH exL) = some 0 ∧ lastOf (preparation cfgH exL) = some 0 ∧
     is2ndAt (preparation cfgH exL) 0 = some false ∧
     jumpAt (preparation cfgH exL) 0 ≠ some []) ∧
    (labelAt (preparation cfgH exL) 0 = some (some (locLabel cfgH 0)) ∨
     (exL 0 = 0 ∧ (0 : Nat) = exL 1 ∧ labelAt (preparation cfgH exL) 0 =
       some (some (entrypointLabel cfgH (exL 1))))) := by
  have he : entryOf (preparation cfgH exL) = some 0 := by
    rw [preparation, prepPhases_eval cfgH (freshCells exL) 0 (by omega) (by decide) exL_hz]
    decide
  have hlw : lastOf (preparation cfgH exL) = some 0 := by
    rw [preparation, prepPhases_eval cfgH (freshCells exL) 0 (by omega) (by decide) exL_hz]
    decide
  have h2 : is2ndAt (preparation cfgH exL) 0 = some false := by
    rw [preparation, prepPhases_eval cfgH (freshCells exL) 0 (by omega) (by decide) exL_hz]
    decide
  have hj : jumpAt (preparation cfgH exL) 0 ≠ some [] := by
    rw [preparation, prepPhases_eval cfgH (freshCells exL) 0 (by omega) (by decide) exL_hz]
    decide
  exact ⟨⟨he, hlw, h2, hj⟩,
    loc_label_assignment cfgH exL 0 0 0 he hlw (Nat.le_refl 0) (Nat.le_refl 0) h2 hj⟩

/-- The image used by the C5 counterexample: entry vector to address 2,
which holds a CLC. -/
def ex5 : Nat → Nat := fun i => if i = 0 then 0 else if i = 1 then 2 else if i = 2 then 5632 else 0

theorem ex5_hz : ∀ j, 2 < j → j ≤ 65535 → (freshCells ex5 j).data = 0 := by
  intro j h1 h2
  show ex5 j = 0
  rw [ex5, if_neg (by omega), if_neg (by omega), if_neg (by omega)]

/-- Running `preparation` a second time over the already-traced memory. -/
def prepTwice (cfg : Config) (d : Nat → Nat) : Except String (CState × Nat × Nat) := do
  let r ← preparation cfg d
  prepPhases cfg r.1

/-- The traced state of `ex5` after one preparation run. -/
def ex5S : CState :=
  setCellU (setCellU (setCellU (freshCells ex5) 2
      (fun c => { c with label := some (entrypointLabel cfgH 2) }))
    2 (fun c => { c with jump_from := c.jump_from ++ [0] }))
    3 (fun c => { c with exec_from_prev := some 2 })

theorem prep_ex5 : preparation cfgH ex5 = Except.ok (ex5S, 2, 2) := by
  rw [preparation, prepPhases_eval cfgH (freshCells ex5) 2 (by omega) (by decide) ex5_hz]
  rfl

theorem ex5S_data : ∀ j, (ex5S j).data = ex5 j := by
  intro j
  rw [ex5S]
  rw [setU_data]
  · rw [setU_data]
    · rw [setU_data]
      · rfl
      · intro c
        rfl
    · intro c
      rfl
  · intro c
    rfl

theorem ex5S_hz : ∀ j, 2 < j → j ≤ 65535 → (ex5S j).data = 0 := by
  intro j h1 h2
  rw [ex5S_data, ex5, if_neg (by omega), if_neg (by omega), if_neg (by omega)]

/-- C5 counterexample: re-running the Tracer over the same traced memory is
not the identity — the entry cell's `jump_from` gains a duplicate origin 0
on the second run. -/
theorem tracer_rerun_accumulates :
    jumpAt (preparation cfgH ex5) 2 = some [0] ∧
    jumpAt (prepTwice cfgH ex5) 2 = some [0, 0] := by
  constructor
  · rw [prep_ex5]
    decide
  · rw [prepTwice, prep_ex5, bindOk]
    rw [prepPhases_eval cfgH ex5S 2 (by omega) (by decide) ex5S_hz]
    decide

theorem resolveEntry_ok_nonzero (cfg : Config) (s : CState) (h : (s 0).data ≠ 0) :
    resolveEntry cfg s = .ok (s, 0) := by
  rw [resolveEntry, readCell, if_pos (by omega), bindOk, if_neg h]
  rfl

/-- The state a cross-reference-free sweep from `pc` produces: a fallthrough
link on every visited successor. -/
def execfill (s : CState) (pc last : Nat) : CState :=
  fun j => if pc + 1 ≤ j ∧ j ≤ last + 1 then { s j with exec_from_prev := some (j - 1) }
           else s j

theorem execfill_empty (s : CState) (pc last : Nat) (h : last < pc) :
    execfill s pc last = s :=
  funext fun j => if_neg (fun hh => by omega)

theorem execfill_step (s : CState) (pc last : Nat) (hpc : pc ≤ last) :
    execfill (setCellU s (pc + 1) (fun t => { t with exec_from_prev := some pc })) (pc + 1) last
      = execfill s pc last := by
  funext j
  unfold execfill setCellU
  by_cases h1 : pc + 1 + 1 ≤ j ∧ j ≤ last + 1
  · have hc2 : pc + 1 ≤ j ∧ j ≤ last + 1 := ⟨by omega, h1.2⟩
    have hne : ¬ j = pc + 1 := by omega
    rw [if_pos h1, if_neg hne, if_pos hc2]
  · rw [if_neg h1]
    by_cases hj : j = pc + 1
    · subst hj
      rw [if_pos rfl, if_pos (by omega)]
      have hx : pc + 1 - 1 = pc := by omega
      rw [hx]
    · rw [if_neg hj, if_neg ?hn]
      case hn =>
        intro hh
        exact h1 ⟨by omega, hh.2⟩

theorem sweep_ge7 (last : Nat) (hlast : last ≤ 65534) :
    ∀ fuel pc s, last + 1 - pc < fuel →
      (∀ i, i ≤ last → 7 ≤ opcodeOf ((s : CState) i).data) →
      sweepAux last fuel s pc = .ok (execfill s pc last) := by
  intro fuel
  induction fuel with
  | zero =>
    intro pc s h _
    omega
  | succ f ih =>
    intro pc s hfuel hops
    rw [sweepAux]
    by_cases hpc : pc ≤ last
    · rw [if_pos hpc, one_instruction_ge7 s pc (by omega) (by omega) (hops pc hpc)]
      simp only [bindOk]
      rw [ih (pc + 1) _ (by omega) ?hops2]
      case hops2 =>
        intro i hi
        rw [setU_data]
        · exact hops i hi
        · intro c
          rfl
      rw [execfill_step s pc last hpc]
    · rw [if_neg hpc, pureEq, execfill_empty s pc last (by omega)]

theorem preScan_entry_zero (s : CState) : preScanAux 0 F s 0 = .ok s := by
  rw [show F = 69999 + 1 from rfl, preScanAux, if_neg (by omega), pureEq]

theorem labelAux_noop (cfg : Config) (last : Nat) (hlast : last ≤ 65535) :
    ∀ fuel pc s, last + 1 - pc < fuel → (∀ j, (s j).jump_from = []) →
      labelAux cfg last fuel s pc = .ok s := by
  intro fuel
  induction fuel with
  | zero =>
    intro pc s h _
    omega
  | succ f ih =>
    intro pc s hf hj
    rw [labelAux]
    by_cases hpc : pc ≤ last
    · rw [if_pos hpc, readCell, if_pos (by omega), bindOk,
        if_neg (fun hh => hh.2.2 (by rw [hj pc]; rfl)), pureEq, bindOk]
      exact ih (pc + 1) s (by omega) hj
    · rw [if_neg hpc, pureEq]

theorem execfill_idem (s : CState) (last : Nat) :
    execfill (execfill s 0 last) 0 last = execfill s 0 last := by
  funext j
  unfold execfill
  split_ifs <;> rfl

theorem execfill_jump (s : CState) (pc last j : Nat) :
    (execfill s pc last j).jump_from = (s j).jump_from := by
  unfold execfill
  split_ifs <;> rfl

theorem execfill_data (s : CState) (pc last j : Nat) :
    (execfill s pc last j).data = (s j).data := by
  unfold execfill
  split_ifs <;> rfl

/-- C5 (amended): the Tracer is idempotent exactly when the trace records no
cross-references: if the entry vector is unused (`cells[0].data ≠ 0`) and
every word up to `last` has opcode ≥ 7 (no jump, no memory-operand load, no
store), then a second run over the traced memory reproduces the very same
state, entry and last.  In general re-running is not idempotent: lists
accumulate duplicate entries (see the counterexample). -/
theorem tracer_idempotent_without_xrefs (cfg : Config) (d : Nat → Nat) (L : Nat)
    (h0 : d 0 ≠ 0) (hL : L ≤ 65534)
    (hA : ∀ i, i ≤ L → 7 ≤ opcodeOf (d i))
    (hz : ∀ j, L < j → j ≤ 65535 → d j = 0) :
    ∃ s, preparation cfg d = .ok (s, 0, L) ∧ prepPhases cfg s = .ok (s, 0, L) := by
  have hdL : d L ≠ 0 := by
    have h7 := hA L (Nat.le_refl L)
    intro hzz
    rw [hzz] at h7
    exact absurd h7 (by decide)
  refine ⟨execfill (freshCells d) 0 L, ?_, ?_⟩
  · rw [preparation, prepPhases_eval cfg (freshCells d) L (by omega) hdL hz]
    rw [resolveEntry_ok_nonzero cfg (freshCells d) h0]
    simp only [bindOk]
    rw [sweep_ge7 L hL F 0 (freshCells d) (by rw [F]; omega) hA]
    simp only [bindOk]
    rw [preScan_entry_zero]
    simp only [bindOk]
    rw [labelAux_noop cfg L (by omega) F 0 (execfill (freshCells d) 0 L) (by rw [F]; omega)
        (fun j => execfill_jump (freshCells d) 0 L j)]
    simp only [bindOk, pureEq]
  · rw [prepPhases_eval cfg (execfill (freshCells d) 0 L) L (by omega) ?hnz2 ?hz2]
    case hnz2 =>
      rw [execfill_data]
      exact hdL
    case hz2 =>
      intro j h1 h2
      rw [execfill_data]
      exact hz j h1 h2
    rw [resolveEntry_ok_nonzero cfg _ ?h02]
    case h02 =>
      rw [execfill_data]
      exact h0
    simp only [bindOk]
    rw [sweep_ge7 L hL F 0 _ (by rw [F]; omega) ?hops2]
    case hops2 =>
      intro i hi
      rw [execfill_data]
      exact hA i hi
    simp only [bindOk]
    rw [preScan_entry_zero]
    simp only [bindOk]
    rw [execfill_idem]
    rw [labelAux_noop cfg L (by omega) F 0 (execfill (freshCells d) 0 L) (by rw [F]; omega)
        (fun j => execfill_jump (freshCells d) 0 L j)]
    simp only [bindOk, pureEq]

/-- The image used by the C5 witness: a single CLC at address 0. -/
def exW : Nat → Nat := fun i => if i = 0 then 5632 else 0

theorem tracer_idempotent_without_xrefs_witness :
    (exW 0 ≠ 0 ∧ (0 : Nat) ≤ 65534 ∧ (∀ i, i ≤ 0 → 7 ≤ opcodeOf (exW i)) ∧
      (∀ j, 0 < j → j ≤ 65535 → exW j = 0)) ∧
    (∃ s, preparation cfgH exW = .ok (s, 0, 0) ∧ prepPhases cfgH s = .ok (s, 0, 0)) := by
  have hA : ∀ i, i ≤ 0 → 7 ≤ opcodeOf (exW i) := by
    intro i hi
    rw [Nat.le_zero.mp hi]
    decide
  have hz : ∀ j, 0 < j → j ≤ 65535 → exW j = 0 := by
    intro j h1 h2
    rw [exW, if_neg (by omega)]
  exact ⟨⟨by decide, by omega, hA, hz⟩,
    tracer_idempotent_without_xrefs cfgH exW 0 (by decide) (by omega) hA hz⟩

/-- A cell with its label text forgotten (presence kept): the part of the
trace state the claim says must not depend on the configuration. -/
def stripCell (c : Cell) : Cell := { c with label := c.label.map (fun _ => []) }

theorem widthStep_pc (s : CState) (pc : Nat) (s1 : CState) :
    (widthStep s pc s1).2 = if opcodeOf (s pc).data < 7 then pc + 2 else pc + 1 := by
  unfold widthStep
  split_ifs <;> rfl

theorem strip_congr_jump (pc : Nat) (c c' : Cell) (h : stripCell c = stripCell c') :
    stripCell { c with jump_from := c.jump_from ++ [pc] } =
    stripCell { c' with jump_from := c'.jump_from ++ [pc] } := by
  cases c
  cases c'
  simp only [stripCell, Cell.mk.injEq] at h ⊢
  obtain ⟨h1, h2, h3, h4, h5, h6, h7⟩ := h
  exact ⟨h1, h2, h3, h4, h5, h6, by rw [h7]⟩

theorem strip_congr_read (pc : Nat) (c c' : Cell) (h : stripCell c = stripCell c') :
    stripCell { c with read_from := c.read_from ++ [pc] } =
    stripCell { c' with read_from := c'.read_from ++ [pc] } := by
  cases c
  cases c'
  simp only [stripCell, Cell.mk.injEq] at h ⊢
  obtain ⟨h1, h2, h3, h4, h5, h6, h7⟩ := h
  exact ⟨h1, h2, h3, h4, by rw [h5], h6, h7⟩

theorem strip_congr_write (pc : Nat) (c c' : Cell) (h : stripCell c = stripCell c') :
    stripCell { c with write_from := c.write_from ++ [pc] } =
    stripCell { c' with write_from := c'.write_from ++ [pc] } := by
  cases c
  cases c'
  simp only [stripCell, Cell.mk.injEq] at h ⊢
  obtain ⟨h1, h2, h3, h4, h5, h6, h7⟩ := h
  exact ⟨h1, h2, h3, h4, h5, by rw [h6], h7⟩

theorem strip_congr_is2nd (c c' : Cell) (h : stripCell c = stripCell c') :
    stripCell { c with is_2nd_word := true } = stripCell { c' with is_2nd_word := true } := by
  cases c
  cases c'
  simp only [stripCell, Cell.mk.injEq] at h ⊢
  obtain ⟨h1, h2, h3, h4, h5, h6, h7⟩ := h
  exact ⟨h1, h2, h3, trivial, h5, h6, h7⟩

theorem strip_congr_exec (x : Option Nat) (c c' : Cell) (h : stripCell c = stripCell c') :
    stripCell { c with exec_from_prev := x } = stripCell { c' with exec_from_prev := x } := by
  cases c
  cases c'
  simp only [stripCell, Cell.mk.injEq] at h ⊢
  obtain ⟨h1, h2, h3, h4, h5, h6, h7⟩ := h
  exact ⟨h1, h2, trivial, h4, h5, h6, h7⟩

theorem strip_congr_label (x y : List Char) (c c' : Cell) (h : stripCell c = stripCell c') :
    stripCell { c with label := some x } = stripCell { c' with label := some y } := by
  cases c
  cases c'
  simp only [stripCell, Cell.mk.injEq, Option.map_some'] at h ⊢
  obtain ⟨h1, h2, h3, h4, h5, h6, h7⟩ := h
  exact ⟨h1, trivial, h3, h4, h5, h6, h7⟩

theorem setU_stripAll (s t : CState) (i : Nat) (f : Cell → Cell)
    (hf : ∀ c c', stripCell c = stripCell c' → stripCell (f c) = stripCell (f c'))
    (hR : ∀ k, stripCell (s k) = stripCell (t k)) :
    ∀ k, stripCell ((setCellU s i f) k) = stripCell ((setCellU t i f) k) := by
  intro k
  unfold setCellU
  split_ifs
  exacts [hf _ _ (hR k), hR k]

theorem oneInstrPure_strip (s t : CState) (pc : Nat)
    (hR : ∀ i, stripCell (s i) = stripCell (t i)) :
    ∀ i, stripCell ((oneInstrPure s pc).1 i) = stripCell ((oneInstrPure t pc).1 i) := by
  have hdata : ∀ i, (s i).data = (t i).data := by
    intro i
    have hh := congrArg Cell.data (hR i)
    exact hh
  unfold oneInstrPure widthStep xrefStep
  dsimp only
  rw [← hdata pc, ← hdata (pc + 1)]
  split_ifs <;> (try dsimp only) <;>
    first
      | omega
      | exact setU_stripAll _ _ _ _ (strip_congr_exec (some pc))
          (setU_stripAll _ _ _ _ strip_congr_is2nd
            (setU_stripAll _ _ _ _ (strip_congr_jump pc) hR))
      | exact setU_stripAll _ _ _ _ (strip_congr_exec (some pc))
          (setU_stripAll _ _ _ _ strip_congr_is2nd
            (setU_stripAll _ _ _ _ (strip_congr_read pc) hR))
      | exact setU_stripAll _ _ _ _ (strip_congr_exec (some pc))
          (setU_stripAll _ _ _ _ strip_congr_is2nd
            (setU_stripAll _ _ _ _ (strip_congr_write pc) hR))
      | exact setU_stripAll _ _ _ _ (strip_congr_exec (some pc))
          (setU_stripAll _ _ _ _ strip_congr_is2nd hR)
      | exact setU_stripAll _ _ _ _ (strip_congr_exec (some pc)) hR
      | exact setU_stripAll _ _ _ _ strip_congr_is2nd
          (setU_stripAll _ _ _ _ (strip_congr_jump pc) hR)
      | exact setU_stripAll _ _ _ _ strip_congr_is2nd
          (setU_stripAll _ _ _ _ (strip_congr_read pc) hR)
      | exact setU_stripAll _ _ _ _ strip_congr_is2nd
          (setU_stripAll _ _ _ _ (strip_congr_write pc) hR)
      | exact setU_stripAll _ _ _ _ strip_congr_is2nd hR
      | exact hR

theorem one_instruction_rel (s t : CState) (pc : Nat)
    (hR : ∀ i, stripCell (s i) = stripCell (t i)) (r : CState × Nat)
    (h : one_instruction s pc = .ok r) :
    one_instruction t pc = .ok (oneInstrPure t pc) ∧ (oneInstrPure t pc).2 = r.2 ∧
      ∀ i, stripCell (r.1 i) = stripCell ((oneInstrPure t pc).1 i) := by
  have hdata : ∀ i, (s i).data = (t i).data := by
    intro i
    have hh := congrArg Cell.data (hR i)
    exact hh
  obtain ⟨hr, hpc⟩ := one_instruction_inv s pc r h
  obtain ⟨hB1, hB2, hB3⟩ := one_instruction_bounds s pc r h
  have hB1' : opcodeOf (t pc).data < 7 → pc + 1 ≤ 65535 := by
    intro h7
    exact hB1 (by rw [hdata pc]; exact h7)
  have hB2' : (opcodeOf (t pc).data < 4 ∨ opcodeOf (t pc).data = 4 ∨
      opcodeOf (t pc).data = 6) → (t (pc + 1)).data ≤ 65535 := by
    intro ho
    rw [← hdata (pc + 1)]
    refine hB2 ?_
    rw [hdata pc]
    exact ho
  have hB3' : (t pc).data ≠ 0 → (widthStep t pc (xrefStep t pc)).2 ≤ 65535 := by
    intro hne
    rw [widthStep_pc, ← hdata pc]
    rw [widthStep_pc] at hB3
    exact hB3 (by rw [hdata pc]; exact hne)
  refine ⟨one_instruction_eq_ok t pc hpc hB1' hB2' hB3', ?_, ?_⟩
  · rw [hr, oneInstrPure_pc, oneInstrPure_pc, hdata pc]
  · intro i
    rw [hr]
    exact oneInstrPure_strip s t pc hR i

theorem setU_stripAll2 (s t : CState) (i : Nat) (f g : Cell → Cell)
    (hfg : ∀ c c', stripCell c = stripCell c' → stripCell (f c) = stripCell (g c'))
    (hR : ∀ k, stripCell (s k) = stripCell (t k)) :
    ∀ k, stripCell ((setCellU s i f) k) = stripCell ((setCellU t i g) k) := by
  intro k
  unfold setCellU
  split_ifs
  exacts [hfg _ _ (hR k), hR k]

theorem label_none_iff (c c' : Cell) (h : stripCell c = stripCell c') :
    c.label = none ↔ c'.label = none := by
  have hh : c.label.map (fun _ => ([] : List Char)) = c'.label.map (fun _ => []) :=
    congrArg Cell.label h
  cases hc : c.label <;> cases hc' : c'.label <;> rw [hc, hc'] at hh <;> simp_all

theorem resolveEntry_ok_vector (cfg : Config) (s : CState) (h0 : (s 0).data = 0)
    (hb : (s 1).data ≤ 65535) :
    resolveEntry cfg s = .ok (setCellU (setCellU s ((s 1).data)
      (fun c => { c with label := some (entrypointLabel cfg ((s 1).data)) }))
      ((s 1).data) (fun c => { c with jump_from := c.jump_from ++ [0] }), (s 1).data) := by
  rw [resolveEntry, readCell, if_pos (by omega), bindOk, if_pos h0, readCell,
    if_pos (by omega), bindOk, modifyCell, if_pos hb, bindOk, modifyCell, if_pos hb, bindOk]
  rfl

theorem resolveEntry_rel (cfg1 cfg2 : Config) (s t : CState)
    (hR : ∀ i, stripCell (s i) = stripCell (t i)) (s1 : CState) (e : Nat)
    (h : resolveEntry cfg1 s = .ok (s1, e)) :
    ∃ t1, resolveEntry cfg2 t = .ok (t1, e) ∧ ∀ i, stripCell (s1 i) = stripCell (t1 i) := by
  have hdata : ∀ i, (s i).data = (t i).data := by
    intro i
    have hh := congrArg Cell.data (hR i)
    exact hh
  rcases resolveEntry_inv cfg1 s s1 e h with ⟨hne, hs1, he⟩ | ⟨hz0, he, hb, hs1⟩
  · refine ⟨t, ?_, ?_⟩
    · rw [resolveEntry_ok_nonzero cfg2 t (by rw [← hdata 0]; exact hne), he]
    · rw [hs1]
      exact hR
  · refine ⟨setCellU (setCellU t ((t 1).data)
      (fun c => { c with label := some (entrypointLabel cfg2 ((t 1).data)) }))
      ((t 1).data) (fun c => { c with jump_from := c.jump_from ++ [0] }), ?_, ?_⟩
    · rw [resolveEntry_ok_vector cfg2 t (by rw [← hdata 0]; exact hz0)
        (by rw [← hdata 1]; exact hb), he, hdata 1]
    · rw [hs1]
      intro i
      rw [show (t 1).data = (s 1).data from (hdata 1).symm]
      exact setU_stripAll2 _ _ _ _ _ (fun c c' hc => strip_congr_jump 0 c c' hc)
        (setU_stripAll2 _ _ _ _ _
          (fun c c' hc => strip_congr_label _ _ c c' hc) hR) i

theorem sweepAux_rel (last : Nat) : ∀ fuel s t pc s',
    (∀ i, stripCell (s i) = stripCell (t i)) → sweepAux last fuel s pc = .ok s' →
    ∃ t', sweepAux last fuel t pc = .ok t' ∧ ∀ i, stripCell (s' i) = stripCell (t' i) := by
  intro fuel
  induction fuel with
  | zero =>
    intro s t pc s' hR h
    cases h
  | succ f ih =>
    intro s t pc s' hR h
    rw [sweepAux] at h ⊢
    by_cases hpc : pc ≤ last
    · rw [if_pos hpc] at h ⊢
      cases hoi : one_instruction s pc with
      | error e1 =>
        rw [hoi, bindErr] at h
        cases h
      | ok r =>
        rw [hoi, bindOk] at h
        obtain ⟨ht, hpc2, hRs⟩ := one_instruction_rel s t pc hR r hoi
        rw [ht, bindOk, hpc2]
        exact ih r.1 _ r.2 s' hRs h
    · rw [if_neg hpc, pureEq] at h ⊢
      injection h with h'
      subst h'
      exact ⟨t, rfl, hR⟩

theorem preScanAux_rel (entry : Nat) : ∀ fuel s t x s',
    (∀ i, stripCell (s i) = stripCell (t i)) → preScanAux entry fuel s x = .ok s' →
    ∃ t', preScanAux entry fuel t x = .ok t' ∧ ∀ i, stripCell (s' i) = stripCell (t' i) := by
  intro fuel
  induction fuel with
  | zero =>
    intro s t x s' hR h
    cases h
  | succ f ih =>
    intro s t x s' hR h
    rw [preScanAux] at h ⊢
    by_cases hx : x < entry
    · rw [if_pos hx] at h ⊢
      by_cases hr : x ≤ 65535
      case neg =>
        rw [readCell, if_neg hr, bindErr] at h
        cases h
      rw [readCell, if_pos hr, bindOk] at h ⊢
      have hjl : (s x).jump_from = (t x).jump_from := by
        have hh := congrArg Cell.jump_from (hR x)
        exact hh
      have hex : (s x).exec_from_prev = (t x).exec_from_prev := by
        have hh := congrArg Cell.exec_from_prev (hR x)
        exact hh
      by_cases hskip : (s x).jump_from.length = 0 ∧ (s x).exec_from_prev = none
      · rw [if_pos hskip] at h
        rw [if_pos (show (t x).jump_from.length = 0 ∧ (t x).exec_from_prev = none from
          ⟨by rw [← hjl]; exact hskip.1, by rw [← hex]; exact hskip.2⟩)]
        exact ih s t (x + 1) s' hR h
      · rw [if_neg hskip] at h
        rw [if_neg (show ¬ ((t x).jump_from.length = 0 ∧ (t x).exec_from_prev = none) from
          fun hc => hskip ⟨by rw [hjl]; exact hc.1, by rw [hex]; exact hc.2⟩)]
        cases hoi : one_instruction s x with
        | error e1 =>
          rw [hoi, bindErr] at h
          cases h
        | ok r =>
          rw [hoi, bindOk] at h
          obtain ⟨ht, hpc2, hRs⟩ := one_instruction_rel s t x hR r hoi
          rw [ht, bindOk, hpc2]
          exact ih r.1 _ r.2 s' hRs h
    · rw [if_neg hx, pureEq] at h ⊢
      injection h with h'
      subst h'
      exact ⟨t, rfl, hR⟩

theorem labelAux_rel (cfg1 cfg2 : Config) (last : Nat) : ∀ fuel s t pc s',
    (∀ i, stripCell (s i) = stripCell (t i)) →
    labelAux cfg1 last fuel s pc = .ok s' →
    ∃ t', labelAux cfg2 last fuel t pc = .ok t' ∧
      ∀ i, stripCell (s' i) = stripCell (t' i) := by
  intro fuel
  induction fuel with
  | zero =>
    intro s t pc s' hR h
    cases h
  | succ f ih =>
    intro s t pc s' hR h
    rw [labelAux] at h ⊢
    by_cases hpc : pc ≤ last
    · rw [if_pos hpc] at h ⊢
      by_cases hr : pc ≤ 65535
      case neg =>
        rw [readCell, if_neg hr, bindErr] at h
        cases h
      rw [readCell, if_pos hr, bindOk] at h ⊢
      have h2nd : (s pc).is_2nd_word = (t pc).is_2nd_word := by
        have hh := congrArg Cell.is_2nd_word (hR pc)
        exact hh
      have hjl : (s pc).jump_from = (t pc).jump_from := by
        have hh := congrArg Cell.jump_from (hR pc)
        exact hh
      have hln := label_none_iff (s pc) (t pc) (hR pc)
      by_cases hcond : (s pc).is_2nd_word = false ∧ (s pc).label = none ∧
          (s pc).jump_from.length ≠ 0
      · rw [if_pos hcond, modifyCell, if_pos hr, bindOk] at h
        rw [if_pos (show (t pc).is_2nd_word = false ∧ (t pc).label = none ∧
            (t pc).jump_from.length ≠ 0 from
          ⟨by rw [← h2nd]; exact hcond.1, hln.mp hcond.2.1,
           by rw [← hjl]; exact hcond.2.2⟩), modifyCell, if_pos hr, bindOk]
        refine ih _ _ _ _ ?_ h
        exact setU_stripAll2 _ _ _ _ _ (fun c c' hc => strip_congr_label _ _ c c' hc) hR
      · rw [if_neg hcond, pureEq, bindOk] at h
        rw [if_neg (show ¬ ((t pc).is_2nd_word = false ∧ (t pc).label = none ∧
            (t pc).jump_from.length ≠ 0) from
          fun hc => hcond ⟨by rw [h2nd]; exact hc.1, hln.mpr hc.2.1,
            by rw [hjl]; exact hc.2.2⟩), pureEq, bindOk]
        exact ih s t (pc + 1) s' hR h
    · rw [if_neg hpc, pureEq] at h ⊢
      injection h with h'
      subst h'
      exact ⟨t, rfl, hR⟩

theorem findLastAux_congr (d1 d2 : Nat → Nat) (hd : ∀ i, d1 i = d2 i) :
    ∀ n, findLastAux d1 n = findLastAux d2 n := by
  intro n
  induction n with
  | zero =>
    rw [findLastAux, findLastAux, hd 0]
  | succ k ih =>
    rw [findLastAux, findLastAux, hd (k + 1), ih]

theorem prepPhases_rel (cfg1 cfg2 : Config) (s t : CState)
    (hR : ∀ i, stripCell (s i) = stripCell (t i)) (res : CState × Nat × Nat)
    (h : prepPhases cfg1 s = .ok res) :
    ∃ res' : CState × Nat × Nat, prepPhases cfg2 t = .ok res' ∧
      res'.2.1 = res.2.1 ∧ res'.2.2 = res.2.2 ∧
      ∀ i, stripCell (res.1 i) = stripCell (res'.1 i) := by
  obtain ⟨s1, lastv, s2, s3, h1, h2, h3, h4, h5, h6⟩ := prepPhases_inv cfg1 s res h
  obtain ⟨t1, ht1, hR1⟩ := resolveEntry_rel cfg1 cfg2 s t hR s1 res.2.1 h1
  have hfl : findLast (fun i => (t1 i).data) = .ok lastv := by
    rw [findLast, findLastAux_congr (fun i => (t1 i).data) (fun i => (s1 i).data)
      (fun i => by have hh := congrArg Cell.data (hR1 i); exact hh.symm) 65535]
    exact h2
  obtain ⟨t2, ht2, hR2⟩ := sweepAux_rel lastv F s1 t1 res.2.1 s2 hR1 h3
  obtain ⟨t3, ht3, hR3⟩ := preScanAux_rel res.2.1 F s2 t2 0 s3 hR2 h4
  obtain ⟨t4, ht4, hR4⟩ := labelAux_rel cfg1 cfg2 lastv F s3 t3 res.2.1 res.1 hR3 h5
  refine ⟨(t4, res.2.1, lastv), ?_, rfl, by rw [h6], hR4⟩
  rw [prepPhases, ht1, bindOk]
  have hfl' : findLast (fun i => (((t1, res.2.1) : CState × Nat).1 i).data) = .ok lastv := hfl
  rw [hfl', bindOk]
  have ht2' : sweepAux lastv F ((t1, res.2.1) : CState × Nat).1
      ((t1, res.2.1) : CState × Nat).2 = .ok t2 := ht2
  rw [ht2', bindOk]
  have ht3' : preScanAux ((t1, res.2.1) : CState × Nat).2 F t2 0 = .ok t3 := ht3
  rw [ht3', bindOk]
  have ht4' : labelAux cfg2 lastv F t3 ((t1, res.2.1) : CState × Nat).2 = .ok t4 := ht4
  rw [ht4', bindOk, pureEq]

/-- C9: for any loaded image on which preparation succeeds and any two
configurations, the tracer's results agree on entry, last, and every
per-cell trace field (data, exec_from_prev, is_2nd_word, jump_from,
read_from, write_from, and label presence) — everything except the
rendered text inside the label strings, which `stripCell` blanks out. -/
theorem trace_independent_of_config (cfg1 cfg2 : Config) (d : Nat → Nat)
    (hok : isOkB (preparation cfg1 d) = true) :
    entryOf (preparation cfg2 d) = entryOf (preparation cfg1 d) ∧
    lastOf (preparation cfg2 d) = lastOf (preparation cfg1 d) ∧
    ∀ i, (cellAt (preparation cfg2 d) i).map stripCell
       = (cellAt (preparation cfg1 d) i).map stripCell := by
  cases hp : preparation cfg1 d with
  | error e =>
    rw [hp] at hok
    exact Bool.noConfusion hok
  | ok res =>
    have hp' : prepPhases cfg1 (freshCells d) = .ok res := hp
    obtain ⟨res', hp2, he, hl, hcells⟩ :=
      prepPhases_rel cfg1 cfg2 (freshCells d) (freshCells d) (fun i => rfl) res hp'
    have hp2' : preparation cfg2 d = .ok res' := hp2
    rw [hp2']
    obtain ⟨sF, eF, lF⟩ := res
    obtain ⟨sF', eF', lF'⟩ := res'
    have he' : eF' = eF := he
    have hl' : lF' = lF := hl
    refine ⟨?_, ?_, ?_⟩
    · rw [entryOf, entryOf, he']
    · rw [lastOf, lastOf, hl']
    · intro i
      rw [cellAt, cellAt, Option.map_some', Option.map_some', (hcells i).symm]

theorem trace_independent_of_config_witness :
    isOkB (preparation cfgH ex6) = true ∧
    (entryOf (preparation cfgD ex6) = entryOf (preparation cfgH ex6) ∧
     lastOf (preparation cfgD ex6) = lastOf (preparation cfgH ex6) ∧
     ∀ i, (cellAt (preparation cfgD ex6) i).map stripCell
        = (cellAt (preparation cfgH ex6) i).map stripCell) := by
  have hok : isOkB (preparation cfgH ex6) = true := by
    rw [preparation, prepPhases_eval cfgH (freshCells ex6) 2 (by omega) (by decide) ex6_hz]
    decide
  exact ⟨hok, trace_independent_of_config cfgH cfgD ex6 hok⟩

/-- C9 counterexample: the label text itself does depend on the address
display style; with the entry vector pointing at address 2 the hex style
writes the label Entrypoint_0002 while the decimal style writes
Entrypoint_2, so the traced label strings differ between configurations. -/
theorem label_text_depends_on_style :
    labelAt (preparation cfgH ex6) 2 ≠ labelAt (preparation cfgD ex6) 2 := by
  rw [preparation, prepPhases_eval cfgH (freshCells ex6) 2 (by omega) (by decide) ex6_hz,
    preparation, prepPhases_eval cfgD (freshCells ex6) 2 (by omega) (by decide) ex6_hz]
  decide

/-- Hex digits of `n`, most significant first (`'%X'` without padding). -/
def hexStrAux : Nat → Nat → List Char
  | 0, _ => []
  | fuel + 1, n =>
    if n < 16 then [hexDigitChar n]
    else hexStrAux fuel (n / 16) ++ [hexDigitChar (n % 16)]

/-- Python `'%04X' % n`: hex rendering zero-padded to at least four digits. -/
def hexStr4 (n : Nat) : List Char :=
  List.replicate (4 - (hexStrAux (n + 1) n).length) '0' ++ hexStrAux (n + 1) n

/-- Comma-space join, as Python renders the elements of a list. -/
def joinA : List (List Char) → List Char
  | [] => []
  | [x] => x
  | x :: y :: t => x ++ chars (", ") ++ joinA (y :: t)

/-- Python `repr` of a list of `Address` objects: `Address.__repr__` is
`str(self)`, so each element renders under the configured style. -/
def pyListRepr (cfg : Config) (xs : List Nat) : List Char :=
  '[' :: (joinA (xs.map (addrStr cfg)) ++ [']'])

/-- The mnemonic table (`ins_set`, lines 157-159). -/
def ins_set : List (List Char) :=
  [chars ("JMP"), chars ("JEQ"), chars ("JLT"), chars ("JGE"), chars ("LOAD"), chars ("LOAD"),
   chars ("STORE"), chars ("STORE"), chars ("TRAN"), chars ("ADD"), chars ("SUB"), chars ("MULT"),
   chars ("DIV"), chars ("INC"), chars ("DEC"), chars ("AND"), chars ("OR"), chars ("XOR"),
   chars ("NOT"), chars ("ROL"), chars ("ROR"), chars ("CMP"), chars ("CLC"), chars ("STC"),
   chars ("NOP"), chars ("LOAD")]

/-- `ins_set[i]`; every subscript in the source is guarded by an explicit
`< 26` (or smaller) comparison, so the default is never reached. -/
def insName (i : Nat) : List Char := ins_set.getD i []

/-- Lines 165-168: the three possible warnings about the ignored cells 0
and 1 of the data section. -/
def warnAddr (cfg : Config) (i : Nat) (c : Cell) : List (List Char) :=
  (if c.jump_from.length ≠ 0 then
    [chars ("; Warning: address ") ++ addrStr cfg i ++ chars (" may be a jump target of ") ++
      pyListRepr cfg c.jump_from ++ chars ("\n")] else []) ++
  (if c.read_from.length ≠ 0 then
    [chars ("; Warning: address ") ++ addrStr cfg i ++ chars (" may be read by ") ++
      pyListRepr cfg c.read_from ++ chars ("\n")] else []) ++
  (if c.write_from.length ≠ 0 then
    [chars ("; Warning: address ") ++ addrStr cfg i ++ chars (" may be overwritten by ") ++
      pyListRepr cfg c.write_from ++ chars ("\n")] else [])

/-- The `.DATA` section loop (lines 170-179), fuelled; each written chunk
is one list element. -/
def dataAux (cfg : Config) (s : CState) (entry : Nat) : Nat → Nat → Except String (List (List Char))
  | 0, _ => .error errFuel
  | fuel + 1, i =>
    if i < entry then do
      let c ← readCell s i
      let rest ← dataAux cfg s entry fuel (i + 1)
      pure (
        (if c.jump_from.length ≠ 0 ∧ cfg.no_warnings = false then
          [chars ("\t; Warning: the data below (@") ++ addrStr cfg i ++
            chars (") may be a jump target of ") ++ pyListRepr cfg c.jump_from ++ chars ("\n")]
         else []) ++
        [chars ("\tvar_") ++ addrStr cfg i ++ chars (" = $") ++ hexStr4 c.data] ++
        (if cfg.decode_all = true ∧ opcodeOf c.data < 26 then
          [chars ("\t\t; ") ++ insName (opcodeOf c.data)] else []) ++
        [chars ("\n")] ++
        (if c.read_from.length ≠ 0 then
          [chars ("\t\t\t\t\t; XREF(R): ") ++ pyListRepr cfg c.read_from ++ chars ("\n")]
         else []) ++
        (if c.write_from.length ≠ 0 then
          [chars ("\t\t\t\t\t; XREF(W): ") ++ pyListRepr cfg c.write_from ++ chars ("\n")]
         else []) ++
        rest)
    else pure []

/-- The code-section loop of `output()` (lines 182-257), fuelled.  Each
iteration reads `cells[pc]` and unconditionally `cells[pc+1]` (line 188),
renders one instruction, and advances by the decoded width.  Line 241
subscripts the mnemonic table with parentheses — `ins_set(opcode_)` — which
calls the list and raises a TypeError; it is reached exactly when a
two-word instruction's operand word has a nonempty `jump_from` and warnings
are enabled, and is modelled as `errType`. -/
def codeAux (cfg : Config) (s : CState) (entry last : Nat) :
    Nat → Nat → Except String (List (List Char))
  | 0, _ => .error errFuel
  | fuel + 1, pc =>
    if pc ≤ last then do
      let c ← readCell s pc
      let c2 ← readCell s (pc + 1)
      let opc := opcodeOf c.data
      let r1 := reg1Of c.data
      let r2 := reg2Of c.data
      let second := c2.data
      let up : List (List Char) :=
        (match c.label with
          | some lbl => [chars ("\n") ++ lbl ++ chars (":\n")]
          | none => []) ++
        (if c.read_from.length ≠ 0 ∧ cfg.no_warnings = false then
          [chars ("\t; Warning: the code below (@") ++ addrStr cfg pc ++
            chars (") may be read by ") ++ pyListRepr cfg c.read_from ++ chars ("\n")]
         else []) ++
        (if c.write_from.length ≠ 0 ∧ cfg.no_warnings = false then
          [chars ("\t; Warning: the code below (@") ++ addrStr cfg pc ++
            chars (") may be overwritten by ") ++ pyListRepr cfg c.write_from ++ chars ("\n")]
         else [])
      let br : List (List Char) × Nat ←
        if opc < 4 then do
          let ct ← readCell s second
          pure ([chars ("\t") ++ insName opc ++ chars ("\t"),
            match ct.label with
              | some lbl => lbl ++ chars ("\t")
              | none => chars ("@") ++ to_hex second ++ chars ("\t\t")],
            if r1 ≠ 0 ∨ r2 ≠ 0 then 2 else 0)
        else if opc = 4 ∨ opc = 6 then
          pure ([chars ("\t") ++ insName opc ++ chars ("\tR") ++ toDeci r1 ++ chars ("\t") ++
            (if second < entry then chars ("var_") ++ tab_pad cfg second
             else chars ("@") ++ to_hex second ++ chars ("\t"))],
            if r2 ≠ 0 then 1 else 0)
        else if opc = 5 then
          pure ([chars ("\t") ++ insName opc ++ chars ("\tR") ++ toDeci r1 ++ chars ("\t$") ++
            hexStr4 second ++ chars ("\t")], if r2 ≠ 0 then 1 else 0)
        else if (7 ≤ opc ∧ opc ≤ 12) ∨ (15 ≤ opc ∧ opc ≤ 17) ∨ opc = 21 ∨ opc = 25 then
          pure ([chars ("\t") ++ insName opc ++ chars ("\tR") ++ toDeci r1 ++ chars ("\tR") ++
            toDeci r2 ++ chars ("\t")], 0)
        else if opc = 13 ∨ opc = 14 ∨ opc = 18 then
          pure ([chars ("\t") ++ insName opc ++ chars ("\tR") ++ toDeci r1 ++ chars ("\t\t")],
            if r2 ≠ 0 then 1 else 0)
        else if opc = 19 ∨ opc = 20 then
          pure ([chars ("\t") ++ insName opc ++ chars ("\tR") ++ toDeci r1 ++ chars ("\t#") ++
            toDeci r2 ++ chars ("\t")], 0)
        else if 22 ≤ opc ∧ opc ≤ 24 then
          pure ([chars ("\t") ++ insName opc ++ chars ("\t\t\t")],
            if r1 ≠ 0 ∨ r2 ≠ 0 then 2 else 0)
        else
          pure ([chars ("\tNOP\t\t\t")], 0)
      let mid : List (List Char) :=
        (if cfg.include_address = true then [chars ("\t; at ") ++ addrStr cfg pc] else []) ++
        (if cfg.include_data = true then [chars ("\t; data: ") ++ hexStr4 c.data ++
          (if opc < 7 then chars (" ") ++ hexStr4 second else [])] else []) ++
        [chars ("\n")] ++
        (if 26 ≤ opc then
          [chars ("\t; Error: instruction above is not NOP but unknown opcode ") ++
            hexStr4 c.data ++
            chars (";\n\t  plain data in code section is not allowed by compiler;\n\t  if it is a junk code that would never be read or executed,\n\t  please set Cell ") ++
            to_excel pc ++ chars (" to 6144 (NOP) in Excel manually.\n\n")]
         else [])
      if opc < 7 ∧ c2.jump_from.length ≠ 0 ∧ cfg.no_warnings = false then
        .error errType
      else do
        let tails : List (List Char) :=
          (if br.2 ≠ 0 ∧ cfg.no_warnings = false then
            [chars ("\t\t\t\t\t; Warning: instruction above has unused bits (") ++
              (if br.2 = 2 then [hexDigitChar r1] else []) ++ [hexDigitChar r2] ++
              chars (")\n")]
           else []) ++
          (if c.jump_from.length ≠ 0 then
            [chars ("\t\t\t\t\t; XREF(X): ") ++ pyListRepr cfg c.jump_from ++ chars ("\n")]
           else if c.exec_from_prev = none ∧ cfg.no_warnings = false then
            [chars ("\t\t\t\t\t; Warning: the code above (@") ++ addrStr cfg pc ++
              chars (") may not be executed\n")]
           else []) ++
          (if cfg.decode_all = true ∧ opc < 7 ∧ 0 < opcodeOf second ∧ opcodeOf second < 26 then
            [chars ("\t\t\t\t\t; -A: operand can be decoded as ") ++
              insName (opcodeOf second) ++ chars ("\n")]
           else [])
        let rest ← codeAux cfg s entry last fuel (if 7 ≤ opc then pc + 1 else pc + 2)
        pure (up ++ br.1 ++ mid ++ tails ++ rest)
    else pure []

/-- `output()` (lines 147-257) writing to stdout, so without the file
header of lines 150-151; the result is the ordered list of written chunks. -/
def output (cfg : Config) (s : CState) (entry last : Nat) :
    Except String (List (List Char)) := do
  let dataSec ←
    if entry ≠ 0 then do
      let warns ←
        if cfg.no_warnings = false then do
          let c0 ← readCell s 0
          let c1 ← readCell s 1
          pure (warnAddr cfg 0 c0 ++ warnAddr cfg 1 c1)
        else pure []
      let vars ← dataAux cfg s entry F 2
      pure (warns ++ [chars ("\n.DATA\n")] ++ vars ++ [chars ("\n.CODE\n")])
    else pure []
  let code ← codeAux cfg s entry last F entry
  pure (dataSec ++ code)

/-- The whole core after loading: `preparation()` then `output()` (lines
287-288). -/
def runCore (cfg : Config) (d : Nat → Nat) : Except String (List (List Char)) := do
  let res ← preparation cfg d
  output cfg res.1 res.2.1 res.2.2

/-- A benign two-word JMP whose operand word is itself a jump target:
word 0 is `JMP @1` (0x0002 with operand 1), so cell 1 receives
`jump_from = [0]` during the trace and is also the operand word of the
instruction at 0. -/
def exC1 : Nat → Nat := fun i => if i = 0 then 2 else if i = 1 then 1 else 0

theorem exC1_hz : ∀ j, 1 < j → j ≤ 65535 → (freshCells exC1 j).data = 0 := by
  intro j h1 h2
  show exC1 j = 0
  rw [exC1, if_neg (by omega), if_neg (by omega)]

/-- C1 (code bug): the core does not always run to completion.  On the
two-word image `JMP @1` with operand word 1 — a perfectly decodable
program — the emitter reaches line 241, whose `ins_set(opcode_)` calls the
mnemonic list instead of subscripting it, and the run aborts with a
TypeError under the default configuration (hex style, warnings enabled). -/
theorem core_aborts_with_typeerror : runCore cfgH exC1 = .error errType := by
  rw [runCore, preparation, prepPhases_eval cfgH (freshCells exC1) 1 (by omega) (by decide) exC1_hz]
  rfl

theorem bindPure {α β : Type} (v : α) (f : α → Except String β) :
    ((pure v : Except String α) >>= f) = f v := rfl

theorem okOrType_ite (c : Prop) [Decidable c] (m : Except String (List (List Char)))
    (g : List (List Char) → List (List Char))
    (hm : (∃ o, m = .ok o) ∨ m = .error errType) :
    (∃ out, (if c then Except.error errType else m >>= fun rest => pure (g rest)) = .ok out) ∨
      (if c then Except.error errType else m >>= fun rest => pure (g rest)) =
        .error errType := by
  split_ifs with hc
  · exact Or.inr rfl
  · rcases hm with ⟨o, ho⟩ | he
    · refine Or.inl ⟨g o, ?_⟩
      rw [ho, bindOk, pureEq]
    · rw [he, bindErr]
      exact Or.inr rfl

theorem one_instruction_fwd (s : CState) (pc L : Nat)
    (hw : ∀ i, (s i).data ≤ 65535) (hL : L ≤ 65533)
    (hz : ∀ j, L < j → j ≤ 65535 → (s j).data = 0)
    (hpc : pc ≤ 65535) (hpc1 : pc + 1 ≤ 65535) :
    one_instruction s pc = .ok (oneInstrPure s pc) ∧
      pc + 1 ≤ (oneInstrPure s pc).2 ∧ (oneInstrPure s pc).2 ≤ pc + 2 := by
  have hex : (s pc).data ≠ 0 → (widthStep s pc (xrefStep s pc)).2 ≤ 65535 := by
    intro hne
    have hple : pc ≤ L := by
      by_contra hgt
      exact hne (hz pc (by omega) hpc)
    rw [widthStep_pc]
    split_ifs <;> omega
  refine ⟨one_instruction_eq_ok s pc hpc (fun _ => hpc1) (fun _ => hw (pc + 1)) hex, ?_, ?_⟩ <;>
  · rw [oneInstrPure_pc]
    split_ifs <;> omega

theorem sweepAux_ok (L : Nat) (hL : L ≤ 65533) : ∀ fuel s pc,
    (∀ i, (s i).data ≤ 65535) → (∀ j, L < j → j ≤ 65535 → (s j).data = 0) →
    L + 2 ≤ fuel + pc → 0 < fuel →
    ∃ s', sweepAux L fuel s pc = .ok s' ∧ ∀ i, (s' i).data = (s i).data := by
  intro fuel
  induction fuel with
  | zero =>
    intro s pc hw hz hf h0
    omega
  | succ f ih =>
    intro s pc hw hz hf h0
    rw [sweepAux]
    by_cases hpc : pc ≤ L
    · rw [if_pos hpc]
      obtain ⟨hok, hlo, hhi⟩ := one_instruction_fwd s pc L hw hL hz (by omega) (by omega)
      rw [hok, bindOk]
      have hw' : ∀ i, ((oneInstrPure s pc).1 i).data ≤ 65535 := fun i => by
        rw [oneInstrPure_data]
        exact hw i
      have hz' : ∀ j, L < j → j ≤ 65535 → ((oneInstrPure s pc).1 j).data = 0 := fun j a b => by
        rw [oneInstrPure_data]
        exact hz j a b
      obtain ⟨s', h1, h2⟩ := ih (oneInstrPure s pc).1 (oneInstrPure s pc).2 hw' hz'
        (by omega) (by omega)
      refine ⟨s', h1, fun i => ?_⟩
      rw [h2 i, oneInstrPure_data]
    · rw [if_neg hpc, pureEq]
      exact ⟨s, rfl, fun i => rfl⟩

theorem preScanAux_ok (entry L : Nat) (hL : L ≤ 65533) (hent : entry ≤ 65535) : ∀ fuel s x,
    (∀ i, (s i).data ≤ 65535) → (∀ j, L < j → j ≤ 65535 → (s j).data = 0) →
    entry + 1 ≤ fuel + x → 0 < fuel →
    ∃ s', preScanAux entry fuel s x = .ok s' ∧ ∀ i, (s' i).data = (s i).data := by
  intro fuel
  induction fuel with
  | zero =>
    intro s x hw hz hf h0
    omega
  | succ f ih =>
    intro s x hw hz hf h0
    rw [preScanAux]
    by_cases hx : x < entry
    · rw [if_pos hx, readCell, if_pos (by omega), bindOk]
      by_cases hskip : (s x).jump_from.length = 0 ∧ (s x).exec_from_prev = none
      · rw [if_pos hskip]
        exact ih s (x + 1) hw hz (by omega) (by omega)
      · rw [if_neg hskip]
        obtain ⟨hok, hlo, hhi⟩ := one_instruction_fwd s x L hw hL hz (by omega) (by omega)
        rw [hok, bindOk]
        have hw' : ∀ i, ((oneInstrPure s x).1 i).data ≤ 65535 := fun i => by
          rw [oneInstrPure_data]
          exact hw i
        have hz' : ∀ j, L < j → j ≤ 65535 → ((oneInstrPure s x).1 j).data = 0 := fun j a b => by
          rw [oneInstrPure_data]
          exact hz j a b
        obtain ⟨s', h1, h2⟩ := ih (oneInstrPure s x).1 (oneInstrPure s x).2 hw' hz'
          (by omega) (by omega)
        refine ⟨s', h1, fun i => ?_⟩
        rw [h2 i, oneInstrPure_data]
    · rw [if_neg hx, pureEq]
      exact ⟨s, rfl, fun i => rfl⟩

theorem labelAux_ok (cfg : Config) (L : Nat) (hL : L ≤ 65535) : ∀ fuel s pc,
    L + 2 ≤ fuel + pc → 0 < fuel →
    ∃ s', labelAux cfg L fuel s pc = .ok s' ∧ ∀ i, (s' i).data = (s i).data := by
  intro fuel
  induction fuel with
  | zero =>
    intro s pc hf h0
    omega
  | succ f ih =>
    intro s pc hf h0
    rw [labelAux]
    by_cases hpc : pc ≤ L
    · rw [if_pos hpc, readCell, if_pos (by omega), bindOk]
      by_cases hc : (s pc).is_2nd_word = false ∧ (s pc).label = none ∧
          (s pc).jump_from.length ≠ 0
      · rw [if_pos hc, modifyCell, if_pos (by omega), bindOk]
        obtain ⟨s', h1, h2⟩ := ih _ (pc + 1) (by omega) (by omega)
        refine ⟨s', h1, fun i => ?_⟩
        rw [h2 i, setU_data]
        intro c
        rfl
      · rw [if_neg hc, pureEq, bindOk]
        exact ih s (pc + 1) (by omega) (by omega)
    · rw [if_neg hpc, pureEq]
      exact ⟨s, rfl, fun i => rfl⟩

theorem resolveEntry_fwd (cfg : Config) (s : CState) (hw1 : (s 1).data ≤ 65535) :
    ∃ p : CState × Nat, resolveEntry cfg s = .ok p ∧
      (∀ i, (p.1 i).data = (s i).data) ∧ p.2 ≤ 65535 := by
  by_cases h0 : (s 0).data = 0
  · refine ⟨_, resolveEntry_ok_vector cfg s h0 hw1, ?_, hw1⟩
    intro i
    have t1 := setU_data
      (setCellU s ((s 1).data) (fun c => { c with label := some (entrypointLabel cfg ((s 1).data)) }))
      ((s 1).data) (fun c => { c with jump_from := c.jump_from ++ [0] }) i (fun c => rfl)
    have t2 := setU_data s ((s 1).data)
      (fun c => { c with label := some (entrypointLabel cfg ((s 1).data)) }) i (fun c => rfl)
    dsimp only
    rw [t1, t2]
  · exact ⟨(s, 0), resolveEntry_ok_nonzero cfg s h0, fun i => rfl, by omega⟩

theorem prepPhases_ok_fwd (cfg : Config) (s : CState) (L : Nat) (hL : L ≤ 65533)
    (hw : ∀ i, (s i).data ≤ 65535) (hnz : (s L).data ≠ 0)
    (hz : ∀ j, L < j → j ≤ 65535 → (s j).data = 0) :
    ∃ res : CState × Nat × Nat, prepPhases cfg s = .ok res ∧
      (∀ i, (res.1 i).data = (s i).data) ∧ res.2.1 ≤ 65535 ∧ res.2.2 = L := by
  obtain ⟨p, hre, hdp, hpe⟩ := resolveEntry_fwd cfg s (hw 1)
  have hw1 : ∀ i, (p.1 i).data ≤ 65535 := fun i => by
    rw [hdp i]
    exact hw i
  have hz1 : ∀ j, L < j → j ≤ 65535 → (p.1 j).data = 0 := fun j a b => by
    rw [hdp j]
    exact hz j a b
  have hfl : findLast (fun i => (p.1 i).data) = .ok L :=
    findLast_eq _ L (by omega) (by rw [hdp L]; exact hnz) hz1
  obtain ⟨s2, hsw, hd2⟩ := sweepAux_ok L hL F p.1 p.2 hw1 hz1 (by rw [F]; omega) (by rw [F]; omega)
  have hw2 : ∀ i, (s2 i).data ≤ 65535 := fun i => by
    rw [hd2 i]
    exact hw1 i
  have hz2 : ∀ j, L < j → j ≤ 65535 → (s2 j).data = 0 := fun j a b => by
    rw [hd2 j]
    exact hz1 j a b
  obtain ⟨s3, hps, hd3⟩ := preScanAux_ok p.2 L hL hpe F s2 0 hw2 hz2
    (by rw [F]; omega) (by rw [F]; omega)
  obtain ⟨s4, hlb, hd4⟩ := labelAux_ok cfg L (by omega) F s3 p.2
    (by rw [F]; omega) (by rw [F]; omega)
  refine ⟨(s4, p.2, L), ?_, ?_, hpe, rfl⟩
  · rw [prepPhases, hre, bindOk, hfl, bindOk, hsw, bindOk, hps, bindOk, hlb, bindOk, pureEq]
  · intro i
    rw [hd4 i, hd3 i, hd2 i, hdp i]

theorem dataAux_ok (cfg : Config) (s : CState) (entry : Nat) (hent : entry ≤ 65535) :
    ∀ fuel i, entry + 1 ≤ fuel + i → 0 < fuel →
    ∃ out, dataAux cfg s entry fuel i = .ok out := by
  intro fuel
  induction fuel with
  | zero =>
    intro i hf h0
    omega
  | succ f ih =>
    intro i hf h0
    rw [dataAux]
    by_cases hi : i < entry
    · rw [if_pos hi, readCell, if_pos (by omega), bindOk]
      obtain ⟨out, ho⟩ := ih (i + 1) (by omega) (by omega)
      rw [ho, bindOk, pureEq]
      exact ⟨_, rfl⟩
    · rw [if_neg hi, pureEq]
      exact ⟨[], rfl⟩

theorem codeAux_ok (cfg : Config) (s : CState) (entry L : Nat) (hL : L ≤ 65533)
    (hw : ∀ i, (s i).data ≤ 65535) :
    ∀ fuel pc, L + 2 ≤ fuel + pc → 0 < fuel →
    (∃ out, codeAux cfg s entry L fuel pc = .ok out) ∨
      codeAux cfg s entry L fuel pc = .error errType := by
  intro fuel
  induction fuel with
  | zero =>
    intro pc hf h0
    omega
  | succ f ih =>
    intro pc hf h0
    by_cases hpc : pc ≤ L
    case neg =>
      rw [codeAux, if_neg hpc, pureEq]
      exact Or.inl ⟨[], rfl⟩
    rw [codeAux, if_pos hpc, readCell, if_pos (by omega), bindOk, readCell,
      if_pos (by omega), bindOk]
    dsimp only
    have hrec : ∀ pc', pc + 1 ≤ pc' → pc' ≤ pc + 2 →
        (∃ out, codeAux cfg s entry L f pc' = .ok out) ∨
          codeAux cfg s entry L f pc' = .error errType :=
      fun pc' hlo hhi => ih pc' (by omega) (by omega)
    have hrec2 : (∃ o, codeAux cfg s entry L f
          (if 7 ≤ opcodeOf (s pc).data then pc + 1 else pc + 2) = .ok o) ∨
        codeAux cfg s entry L f
          (if 7 ≤ opcodeOf (s pc).data then pc + 1 else pc + 2) = .error errType :=
      hrec _ (by split_ifs <;> omega) (by split_ifs <;> omega)
    by_cases h4 : opcodeOf (s pc).data < 4
    · rw [if_pos h4, readCell, if_pos (hw (pc + 1)), bindOk, bindPure]
      exact okOrType_ite _ _ _ hrec2
    · rw [if_neg h4]
      by_cases hb1 : opcodeOf (s pc).data = 4 ∨ opcodeOf (s pc).data = 6
      · rw [if_pos hb1, bindPure]
        exact okOrType_ite _ _ _ hrec2
      · rw [if_neg hb1]
        by_cases hb2 : opcodeOf (s pc).data = 5
        · rw [if_pos hb2, bindPure]
          exact okOrType_ite _ _ _ hrec2
        · rw [if_neg hb2]
          by_cases hb3 : (7 ≤ opcodeOf (s pc).data ∧ opcodeOf (s pc).data ≤ 12) ∨
              (15 ≤ opcodeOf (s pc).data ∧ opcodeOf (s pc).data ≤ 17) ∨
              opcodeOf (s pc).data = 21 ∨ opcodeOf (s pc).data = 25
          · rw [if_pos hb3, bindPure]
            exact okOrType_ite _ _ _ hrec2
          · rw [if_neg hb3]
            by_cases hb4 : opcodeOf (s pc).data = 13 ∨ opcodeOf (s pc).data = 14 ∨
                opcodeOf (s pc).data = 18
            · rw [if_pos hb4, bindPure]
              exact okOrType_ite _ _ _ hrec2
            · rw [if_neg hb4]
              by_cases hb5 : opcodeOf (s pc).data = 19 ∨ opcodeOf (s pc).data = 20
              · rw [if_pos hb5, bindPure]
                exact okOrType_ite _ _ _ hrec2
              · rw [if_neg hb5]
                by_cases hb6 : 22 ≤ opcodeOf (s pc).data ∧ opcodeOf (s pc).data ≤ 24
                · rw [if_pos hb6, bindPure]
                  exact okOrType_ite _ _ _ hrec2
                · rw [if_neg hb6, bindPure]
                  exact okOrType_ite _ _ _ hrec2

theorem output_ok (cfg : Config) (s : CState) (entry L : Nat) (hent : entry ≤ 65535)
    (hL : L ≤ 65533) (hw : ∀ i, (s i).data ≤ 65535) :
    (∃ out, output cfg s entry L = .ok out) ∨ output cfg s entry L = .error errType := by
  rw [output]
  have hcode := codeAux_ok cfg s entry L hL hw F entry (by rw [F]; omega) (by rw [F]; omega)
  by_cases he : entry ≠ 0
  · rw [if_pos he]
    obtain ⟨vars, hvars⟩ := dataAux_ok cfg s entry hent F 2 (by rw [F]; omega) (by rw [F]; omega)
    by_cases hnw : cfg.no_warnings = false
    · rw [if_pos hnw, readCell, if_pos (by omega), bindOk, readCell, if_pos (by omega),
        bindOk, bindPure]
      dsimp only
      rw [hvars, bindOk, bindPure]
      rcases hcode with ⟨out, ho⟩ | herr
      · refine Or.inl ?_
        rw [ho, bindOk, pureEq]
        exact ⟨_, rfl⟩
      · rw [herr, bindErr]
        exact Or.inr rfl
    · rw [if_neg hnw, bindPure]
      dsimp only
      rw [hvars, bindOk, bindPure]
      rcases hcode with ⟨out, ho⟩ | herr
      · refine Or.inl ?_
        rw [ho, bindOk, pureEq]
        exact ⟨_, rfl⟩
      · rw [herr, bindErr]
        exact Or.inr rfl
  · rw [if_neg he, bindPure]
    dsimp only
    rcases hcode with ⟨out, ho⟩ | herr
    · refine Or.inl ?_
      rw [ho, bindOk, pureEq]
      exact ⟨_, rfl⟩
    · rw [herr, bindErr]
      exact Or.inr rfl

/-- C10: on a 16-bit image (every word at most 65535) whose highest
nonzero word sits at an address no greater than 65533, every cell index
the tracer and the emitter touch stays inside [0, 65535]: preparation
succeeds, and the emitter either completes or stops at the unrelated
line-241 TypeError — it never raises an IndexError, because `cells[pc+1]`
and the fall-through `exec_from_prev` write at `pc+2` stay at or below
65535. -/
theorem emitter_in_bounds (cfg : Config) (d : Nat → Nat) (L : Nat)
    (hw : ∀ i, d i ≤ 65535) (hL : L ≤ 65533) (hnz : d L ≠ 0)
    (hz : ∀ j, L < j → j ≤ 65535 → d j = 0) :
    ∃ res : CState × Nat × Nat, preparation cfg d = .ok res ∧
      ((∃ out, runCore cfg d = .ok out) ∨ runCore cfg d = .error errType) := by
  obtain ⟨res, hres, hdata, hent, hlast⟩ := prepPhases_ok_fwd cfg (freshCells d) L hL
    (fun i => hw i) hnz hz
  have hres' : preparation cfg d = .ok res := hres
  refine ⟨res, hres', ?_⟩
  have hrc : runCore cfg d = output cfg res.1 res.2.1 res.2.2 := by
    rw [runCore, hres', bindOk]
  rw [hrc]
  have hw' : ∀ i, (res.1 i).data ≤ 65535 := fun i => by
    have hh : (res.1 i).data = d i := hdata i
    rw [hh]
    exact hw i
  have hL' : res.2.2 ≤ 65533 := by
    rw [hlast]
    exact hL
  exact output_ok cfg res.1 res.2.1 res.2.2 hent hL' hw'

theorem emitter_in_bounds_witness :
    (∀ i, ex6 i ≤ 65535) ∧ (2 : Nat) ≤ 65533 ∧ ex6 2 ≠ 0 ∧
    (∀ j, 2 < j → j ≤ 65535 → ex6 j = 0) ∧
    ∃ res : CState × Nat × Nat, preparation cfgH ex6 = .ok res ∧
      ((∃ out, runCore cfgH ex6 = .ok out) ∨ runCore cfgH ex6 = .error errType) := by
  have hw : ∀ i, ex6 i ≤ 65535 := by
    intro i
    rw [ex6]
    split_ifs <;> omega
  exact ⟨hw, by omega, by decide, ex6_hz',
    emitter_in_bounds cfgH ex6 2 hw (by omega) (by decide) ex6_hz'⟩

end ExcelDisasm

